import Mathlib

/-!
Student record store: embedding and verification.

Shallow embedding of `src/database.c`, `src/validator.c` and
`src/student_manager.c`.

* The file-scope variables `students[MAX_STUDENTS]` and `student_count` of
  `database.c` become the two fields of `Db`; every operation takes the
  state and returns the new state together with its `int32_t` result.
* `g_next_id` of `student_manager.c` becomes a field of `World`.
* `int32_t` values are `Int`; the only arithmetic that can leave the 32-bit
  range is `g_next_id++` and `g_next_id - 1`, which are reduced with `wrap32`.
* `float` is `Float32`, the three bit fields of an IEEE-754 binary32 value,
  with the comparison of the C language (false as soon as one side is NaN).
  Addition, division and the conversion from `int32_t` are the binary32
  operations with rounding to nearest, ties to even (`Float32.add`,
  `Float32.div`, `Float32.ofInt`); which NaN an operation returns is left to
  the platform by IEEE-754 and is not modelled beyond its being a NaN.
* A pointer argument is an `Option`: `none` is `NULL`.
-/

namespace StudentDb

/-! ## IEEE-754 binary32 -/

/-- The bit fields of a C `float`: sign bit, 8 exponent bits, 23 mantissa bits. -/
structure Float32 where
  sign : Bool
  exponent : Fin 256
  mantissa : Fin 8388608
deriving DecidableEq, Repr

namespace Float32

/-- NaN: exponent field all ones and a non-zero mantissa. -/
def isNaN (x : Float32) : Bool :=
  decide (x.exponent.val = 255) && decide (x.mantissa.val ≠ 0)

/-- Absolute value in units of `2^(-149)` (the smallest subnormal). A subnormal
(exponent field 0) is `mantissa * 2^(-149)`, a normal number is
`(2^23 + mantissa) * 2^(exponent - 150)`. The same formula sends the
infinities (exponent field 255, mantissa 0) to `2^277`, above every finite
magnitude, so the order of the units is the order of the extended reals. -/
def magnitude (x : Float32) : Nat :=
  if x.exponent.val = 0 then x.mantissa.val
  else (8388608 + x.mantissa.val) * 2 ^ (x.exponent.val - 1)

/-- Signed value in units of `2^(-149)`; both zeros give `0`. -/
def units (x : Float32) : Int :=
  if x.sign then -(x.magnitude : Int) else (x.magnitude : Int)

/-- The C comparison `a < b` on floats: false when either operand is NaN. -/
def lt (a b : Float32) : Bool :=
  !a.isNaN && !b.isNaN && decide (a.units < b.units)

/-- The C comparison `a > b` on floats. -/
def gt (a b : Float32) : Bool := lt b a

/-- The literal `0.0f` (bit pattern `0x00000000`). -/
def zero : Float32 := ⟨false, 0, 0⟩

/-- The literal `100.0f` (bit pattern `0x42C80000`): `1.5625 * 2^6`. -/
def hundred : Float32 := ⟨false, 133, 4718592⟩

/-- One unit `2^(-149)` scaled to the integer `100`: `100 * 2^149`. -/
def hundredUnits : Int := 100 * 2 ^ 149

/-- The number denoted by `x` lies in the closed interval `[0.0, 100.0]`. -/
def InScoreDomain (x : Float32) : Prop :=
  x.isNaN = false ∧ 0 ≤ x.units ∧ x.units ≤ hundredUnits

instance (x : Float32) : Decidable (InScoreDomain x) := by
  unfold InScoreDomain; exact inferInstance

end Float32

/-! ## Data model (`include/database.h`) -/

/-- The `Student` struct: `int32_t id; char name[64]; float score;`. The
name buffer is the list of its bytes. -/
structure Student where
  id : Int
  name : List Nat
  score : Float32
deriving DecidableEq, Repr

/-- An all-zero `Student`, what `memset(students, 0, ...)` leaves in a slot. -/
def Student.zeroed : Student := ⟨0, List.replicate 64 0, Float32.zero⟩

instance : Inhabited Student := ⟨Student.zeroed⟩

/-- Capacity of the slot array, the macro `MAX_STUDENTS` (100). -/
def MAX_STUDENTS : Nat := 100

/-- The static state of `database.c`: the slot array and the live count. -/
structure Db where
  students : List Student
  student_count : Int
deriving DecidableEq, Repr

/-- Slot read `students[i]`. -/
def slot (a : List Student) (i : Nat) : Student := a.getD i default

/-- Representation invariant of the store: the array has its declared
`MAX_STUDENTS` slots and the count indexes into it. C gives the operations a
meaning exactly on these states (outside them the loops and the append index
out of the array). -/
def Db.WF (db : Db) : Prop :=
  db.students.length = MAX_STUDENTS ∧ 0 ≤ db.student_count ∧
    db.student_count ≤ (MAX_STUDENTS : Int)

instance (db : Db) : Decidable db.WF := by
  unfold Db.WF; exact inferInstance

/-- The live sequence: the first `student_count` slots, in order. -/
def Db.live (db : Db) : List Student :=
  db.students.take db.student_count.toNat

/-! ## `database.c` -/

/-- The loop shared by the three lookups,
`for (i = i0; i < student_count; i++) if (students[i].id == id) return hit(i);`
followed by `return miss`. The first numeric argument is the number of
iterations left, `student_count - i0`. -/
def scan_loop {α : Type} (students : List Student) (id : Int)
    (hit : Nat → α) (miss : α) : Nat → Nat → α
  | 0, _ => miss
  | n + 1, i =>
    if (slot students i).id = id then hit i
    else scan_loop students id hit miss n (i + 1)

/-- Slot-level `memmove(&a[dst], &a[src], n * sizeof(Student))`: slots `dst .. dst+n-1`
receive the old contents of slots `src .. src+n-1`; all reads see the array as
it was before the call. -/
def memmove (a : List Student) (dst src n : Nat) : List Student :=
  (List.range a.length).map fun j =>
    if dst ≤ j ∧ j < dst + n then slot a (src + (j - dst)) else slot a j

/-- Function `db_init`: count to zero, every slot zeroed, returns 0. -/
def db_init (_db : Db) : Db × Int :=
  ({ students := List.replicate MAX_STUDENTS Student.zeroed, student_count := 0 }, 0)

/-- Function `db_add_student`: the capacity test comes first, then the null test, then
`students[student_count] = *student; student_count++`. -/
def db_add_student (db : Db) (student : Option Student) : Db × Int :=
  if db.student_count ≥ (MAX_STUDENTS : Int) then (db, -1)
  else
    match student with
    | none => (db, -1)
    | some s =>
      ({ students := db.students.set db.student_count.toNat s,
         student_count := db.student_count + 1 }, 0)

/-- Function `db_get_student`: the argument `student` is the output slot (`none` for
`NULL`, otherwise its content before the call); the last component of the
result is the slot after the call. -/
def db_get_student (db : Db) (id : Int) (student : Option Student) :
    Db × Int × Option Student :=
  match student with
  | none => (db, -1, none)
  | some old =>
    scan_loop db.students id
      (fun i => (db, 0, some (slot db.students i)))
      (db, -1, some old) db.student_count.toNat 0

/-- The field assignment `r.score = score`: id and name are kept. -/
def Student.withScore (r : Student) (score : Float32) : Student :=
  { id := r.id, name := r.name, score := score }

/-- Function `db_update_score`: `students[i].score = score` at the first match. -/
def db_update_score (db : Db) (id : Int) (score : Float32) : Db × Int :=
  scan_loop db.students id
    (fun i =>
      ({ db with students :=
          db.students.set i ((slot db.students i).withScore score) }, 0))
    (db, -1) db.student_count.toNat 0

/-- Function `db_delete_student`: at the first match `i`, `memmove` of
`student_count - i - 1` slots from `i + 1` down to `i`, then
`student_count--`. -/
def db_delete_student (db : Db) (id : Int) : Db × Int :=
  scan_loop db.students id
    (fun i =>
      ({ students :=
          memmove db.students i (i + 1) (db.student_count - (i : Int) - 1).toNat,
         student_count := db.student_count - 1 }, 0))
    (db, -1) db.student_count.toNat 0

/-! ## `validator.c` -/

/-- Function `strlen` of a C string given as the list of its characters before the
terminating NUL. -/
def strlen (s : List Nat) : Nat := s.length

/-- Function `validate_student_name`: `none` is the null pointer. -/
def validate_student_name (name : Option (List Nat)) : Int :=
  match name with
  | none => -1
  | some s =>
    if strlen s = 0 then -1
    else if strlen s > 63 then -1
    else 0

/-- Function `validate_score`: `score < 0.0f || score > 100.0f` rejects. -/
def validate_score (score : Float32) : Int :=
  if Float32.lt score Float32.zero || Float32.gt score Float32.hundred then -1
  else 0

/-- Function `validate_student_id`: rejects `id <= 0`. -/
def validate_student_id (id : Int) : Int :=
  if id ≤ 0 then -1 else 0

/-! ## `student_manager.c` -/

/-- Two's-complement reduction of an `int32_t` result. -/
def wrap32 (x : Int) : Int := (x + 2147483648) % 4294967296 - 2147483648

/-- The bytes `strncpy(dest, src, n)` stores in `dest[0 .. n-1]`: the first
`n` characters of `src`, then NUL padding up to `n` bytes. -/
def strncpy (src : List Nat) (n : Nat) : List Nat :=
  src.take n ++ List.replicate (n - src.length) 0

/-- The string a `char` buffer holds: its bytes before the first NUL. -/
def cstring (buf : List Nat) : List Nat := buf.takeWhile (fun c => c ≠ 0)

/-- The whole program state: the store and the id counter `g_next_id`. -/
structure World where
  db : Db
  g_next_id : Int
deriving DecidableEq, Repr

/-- Function `add_student`. The local `student` gets `id = g_next_id++`, its name
bytes `0..62` from `strncpy(student.name, name, 63)` and byte 63 from
`student.name[63] = 0`, and the score; then `db_add_student(&student)`. -/
def add_student (w : World) (name : Option (List Nat)) (initial_score : Float32) :
    World × Int :=
  if validate_student_name name ≠ 0 then (w, -1)
  else if validate_score initial_score ≠ 0 then (w, -1)
  else
    let student : Student :=
      { id := w.g_next_id,
        name := strncpy (name.getD []) 63 ++ [0],
        score := initial_score }
    let next := wrap32 (w.g_next_id + 1)
    let r := db_add_student w.db (some student)
    if r.2 ≠ 0 then ({ db := r.1, g_next_id := next }, -1)
    else ({ db := r.1, g_next_id := next }, student.id)

/-! ## Specification vocabulary -/

/-- Index `i` is the first record of the live sequence whose id is `k`. -/
def Db.FirstMatch (db : Db) (k : Int) (i : Nat) : Prop :=
  i < db.live.length ∧ (slot db.live i).id = k ∧
    ∀ j, j < i → (slot db.live j).id ≠ k

instance (db : Db) (k : Int) (i : Nat) : Decidable (db.FirstMatch k i) := by
  unfold Db.FirstMatch; exact inferInstance

/-- Some live record has id `k`. -/
def Db.HasKey (db : Db) (k : Int) : Prop := ∃ s ∈ db.live, s.id = k

instance (db : Db) (k : Int) : Decidable (db.HasKey k) := by
  unfold Db.HasKey; exact inferInstance

/-- Number of live records whose id is `k`. -/
def Db.keyCount (db : Db) (k : Int) : Nat :=
  db.live.countP (fun s => decide (s.id = k))

/-- The 64-byte name buffer that holds the characters `cs` followed by NUL
bytes only. -/
def nameBuf (cs : List Nat) : List Nat := cs ++ List.replicate (64 - cs.length) 0

/-- One call of the store interface, with its arguments. -/
inductive DbCall where
  | init
  | add (student : Option Student)
  | get (id : Int) (student : Option Student)
  | update (id : Int) (score : Float32)
  | delete (id : Int)
deriving DecidableEq, Repr

/-- The store after the call. -/
def DbCall.step (db : Db) : DbCall → Db
  | .init => (db_init db).1
  | .add p => (db_add_student db p).1
  | .get id out => (db_get_student db id out).1
  | .update id sc => (db_update_score db id sc).1
  | .delete id => (db_delete_student db id).1

/-- The store reached from `db_init()` by the calls `cs`, in order. -/
def runCalls (cs : List DbCall) : Db :=
  cs.foldl DbCall.step (db_init ⟨[], 0⟩).1

/-- A record as the validator accepts it: positive id, a 64-byte name buffer
holding a string of 1 to 63 characters, and a score in `[0.0, 100.0]`. -/
def ValidRecord (r : Student) : Prop :=
  0 < r.id ∧ r.name.length = 64 ∧ 1 ≤ (cstring r.name).length ∧
    (cstring r.name).length ≤ 63 ∧ r.score.InScoreDomain

instance (r : Student) : Decidable (ValidRecord r) := by
  unfold ValidRecord; exact inferInstance

/-! ## Sample data -/

/-- The float `95.5f` (`0x42BF0000`). -/
def f95_5 : Float32 := ⟨false, 133, 4128768⟩

/-- The float `87.0f` (`0x42AE0000`). -/
def f87 : Float32 := ⟨false, 133, 3014656⟩

/-- Record `{1, "Al", 95.5f}`. -/
def alice : Student := ⟨1, nameBuf [65, 108], f95_5⟩

/-- Record `{1, "Bob", 87.0f}`: same id as `alice`. -/
def bob : Student := ⟨1, nameBuf [66, 111, 98], f87⟩

/-- Record `{2, "Bob", 87.0f}`. -/
def bob2 : Student := ⟨2, nameBuf [66, 111, 98], f87⟩

/-- The empty store, as `db_init` leaves it. -/
def emptyDb : Db := (db_init ⟨[], 0⟩).1

/-- The store after `db_init(); db_add_student(&alice)`. -/
def oneDb : Db := (db_add_student emptyDb (some alice)).1

/-- The store after `db_init(); db_add_student(&alice); db_add_student(&bob)`:
two live records with id 1. -/
def dupDb : Db := (db_add_student oneDb (some bob)).1

/-- The store after `db_init(); db_add_student(&alice); db_add_student(&bob2)`. -/
def twoDb : Db := (db_add_student oneDb (some bob2)).1

/-- The state of a fresh process that has called `db_init()`: empty store,
counter at 1. -/
def freshWorld : World := ⟨emptyDb, 1⟩

/-- The store after `db_init()` and `n` calls `db_add_student(&alice)`. -/
def fillDb : Nat → Db
  | 0 => emptyDb
  | n + 1 => (db_add_student (fillDb n) (some alice)).1

/-- A full store: `db_init()` and 100 successful appends. -/
def fullDb : Db := fillDb 100

/-- A full store whose last live slot, index 99, holds the only record with
id 2: `db_init()`, 99 appends of `alice`, one append of `bob2`. -/
def lastDb : Db := (db_add_student (fillDb 99) (some bob2)).1

/-! ## `student_manager.c`, continued -/

/-- Function `update_student_score`: id check, then score check, then
`db_update_score`, whose failure becomes -1. -/
def update_student_score (w : World) (id : Int) (new_score : Float32) : World × Int :=
  if validate_student_id id ≠ 0 then (w, -1)
  else if validate_score new_score ≠ 0 then (w, -1)
  else
    let r := db_update_score w.db id new_score
    if r.2 ≠ 0 then ({ w with db := r.1 }, -1)
    else ({ w with db := r.1 }, 0)

/-- Function `get_total_students`: `g_next_id - 1`. -/
def get_total_students (w : World) : Int := wrap32 (w.g_next_id - 1)

/-! ### Binary32 arithmetic used by `get_average_score` -/

/-- A quiet NaN (bit pattern `0x7FC00000`). -/
def Float32.qnan : Float32 := ⟨false, 255, 4194304⟩

/-- The infinity of the given sign. -/
def Float32.inf (neg : Bool) : Float32 := ⟨neg, 255, 0⟩

/-- An infinity: exponent field all ones, mantissa zero. -/
def Float32.isInf (x : Float32) : Bool :=
  decide (x.exponent.val = 255) && decide (x.mantissa.val = 0)

/-- A finite value (zero, subnormal or normal): exponent field below 255. -/
def Float32.isFinite (x : Float32) : Bool := decide (x.exponent.val ≠ 255)

/-- Search for the binade of the magnitude `p / q` units: the least `k`,
counted up from the given start, with `p < q * 2^(k + 24)`. The first numeric
argument bounds the number of steps. -/
def Float32.findShift (p q : Nat) : Nat → Nat → Nat
  | 0, k => k
  | fuel + 1, k => if p < q * 2 ^ (k + 24) then k else findShift p q fuel (k + 1)

/-- The float of the given sign and magnitude `m * 2^k` units, for a
significand `m <= 2^24`: subnormal when `m < 2^23` (then `k = 0`), exponent
field `k + 1` otherwise, one more when rounding carried `m` to `2^24`; an
exponent field of 255 or more is an overflow to infinity. -/
def Float32.encode (neg : Bool) (m k : Nat) : Float32 :=
  if m < 8388608 then ⟨neg, 0, Fin.ofNat m⟩
  else if m = 16777216 then
    (if 255 ≤ k + 2 then Float32.inf neg else ⟨neg, Fin.ofNat (k + 2), 0⟩)
  else if 255 ≤ k + 1 then Float32.inf neg
  else ⟨neg, Fin.ofNat (k + 1), Fin.ofNat (m - 8388608)⟩

/-- Rounding to nearest, ties to even, of the magnitude `p / q` units
(`q > 0`) with the given sign: the quotient by the spacing `2^k` of the
binade is rounded up when the remainder is above half the spacing, or equal
to it with an odd quotient. -/
def Float32.roundUnits (neg : Bool) (p q : Nat) : Float32 :=
  let k := Float32.findShift p q 512 0
  let d := q * 2 ^ k
  let m := p / d
  let r := p % d
  let up := decide (d < 2 * r) || (decide (2 * r = d) && decide (m % 2 = 1))
  Float32.encode neg (if up then m + 1 else m) k

/-- The C operation `a + b` on floats: NaN when an operand is a NaN or the
operands are infinities of opposite sign, an infinite operand otherwise
wins, and finite operands give their exact sum rounded; an exact sum of zero
is `-0.0` only when both operands are `-0.0`. -/
def Float32.add (a b : Float32) : Float32 :=
  if a.isNaN || b.isNaN then Float32.qnan
  else if a.isInf then (if b.isInf && (a.sign != b.sign) then Float32.qnan else a)
  else if b.isInf then b
  else if a.units + b.units = 0 then ⟨a.sign && b.sign, 0, 0⟩
  else Float32.roundUnits (decide (a.units + b.units < 0)) (a.units + b.units).natAbs 1

/-- The C operation `a / b` on floats: NaN when an operand is a NaN and for
`inf / inf` and `0 / 0`; signed infinity for `inf / x` and `x / 0`; signed
zero for `x / inf` and `0 / x`; otherwise the exact quotient rounded. -/
def Float32.div (a b : Float32) : Float32 :=
  if a.isNaN || b.isNaN then Float32.qnan
  else if a.isInf then (if b.isInf then Float32.qnan else Float32.inf (a.sign != b.sign))
  else if b.isInf then ⟨a.sign != b.sign, 0, 0⟩
  else if b.magnitude = 0 then
    (if a.magnitude = 0 then Float32.qnan else Float32.inf (a.sign != b.sign))
  else if a.magnitude = 0 then ⟨a.sign != b.sign, 0, 0⟩
  else Float32.roundUnits (a.sign != b.sign) (a.magnitude * 2 ^ 149) b.magnitude

/-- The conversion of an `int32_t` to `float`: the integer rounded to 24
significant bits. -/
def Float32.ofInt (n : Int) : Float32 :=
  if n = 0 then Float32.zero
  else Float32.roundUnits (decide (n < 0)) (n.natAbs * 2 ^ 149) 1

/-- The loop of `get_average_score`,
`for (i = i0; i < count; i++) { Student student;
if (db_get_student(i + 1, &student) == 0) total += student.score; }`.
The numeric arguments are the number of iterations left and `i0`. The fresh
local `student` is passed as a slot with unspecified content. -/
def average_loop : Db → Float32 → Nat → Nat → Db × Float32
  | db, total, 0, _ => (db, total)
  | db, total, n + 1, i =>
    let r := db_get_student db ((i : Int) + 1) (some default)
    if r.2.1 = 0 then
      average_loop r.1 (Float32.add total (r.2.2.getD default).score) n (i + 1)
    else average_loop r.1 total n (i + 1)

/-- Function `get_average_score`: `0.0f` when the total is 0, otherwise the
loop total divided by the total converted to `float`. -/
def get_average_score (w : World) : World × Float32 :=
  let count := get_total_students w
  if count = 0 then (w, Float32.zero)
  else
    let r := average_loop w.db Float32.zero count.toNat 0
    ({ w with db := r.1 }, Float32.div r.2 (Float32.ofInt count))

/-! ## Specification vocabulary, continued -/

/-- The number denoted by `x` is below `0.0`. -/
def Float32.BelowZero (x : Float32) : Prop := x.isNaN = false ∧ x.units < 0

/-- The number denoted by `x` is above `100.0`. -/
def Float32.AboveHundred (x : Float32) : Prop :=
  x.isNaN = false ∧ Float32.hundredUnits < x.units

instance (x : Float32) : Decidable x.BelowZero := by
  unfold Float32.BelowZero; exact inferInstance

instance (x : Float32) : Decidable x.AboveHundred := by
  unfold Float32.AboveHundred; exact inferInstance

/-- The float `-1.0f` (`0xBF800000`). -/
def fNeg1 : Float32 := ⟨true, 127, 0⟩

/-- The float `101.0f` (`0x42CA0000`). -/
def f101 : Float32 := ⟨false, 133, 4849664⟩

/-- A state of a running process: `alice` stored, counter at 2. -/
def oneWorld : World := ⟨oneDb, 2⟩

/-! ## Memory footprint of the shift in `db_delete_student` -/

/-- The slots `memmove(&a[dst], &a[src], n * sizeof(Student))` reads:
`src .. src+n-1`. -/
def memmove_reads (src n : Nat) : List Nat := List.range' src n

/-- The slots `memmove(&a[dst], &a[src], n * sizeof(Student))` writes:
`dst .. dst+n-1`. -/
def memmove_writes (dst n : Nat) : List Nat := List.range' dst n

/-- The `memmove` call that `db_delete_student(id)` makes, as the triple of
destination slot, source slot and number of slots moved,
`(i, i + 1, student_count - i - 1)` at the first match `i`; `none` when the
loop ends without a match and no call is made. -/
def db_delete_student_shift (db : Db) (id : Int) : Option (Nat × Nat × Nat) :=
  scan_loop db.students id
    (fun i => some (i, i + 1, (db.student_count - (i : Int) - 1).toNat))
    none db.student_count.toNat 0

/-! ## Specification of the average, in the words of the claim -/

/-- The scores the average adds up: for `k = 1 .. T` in order, the score of
the first live record with id `k`; an id with no live record gives none. -/
def foundScores (db : Db) (T : Nat) : List Float32 :=
  (List.range T).filterMap fun (t : Nat) =>
    (db.live.find? (fun s => decide (s.id = (t : Int) + 1))).map (fun r => r.score)

/-- The binary32 sum of the list, accumulated from the left onto `acc`. -/
def floatSum (acc : Float32) (xs : List Float32) : Float32 :=
  xs.foldl Float32.add acc

/-- The score of the first live record with id `k` as an exact number, in
units of `2^(-149)`; `0` when no live record has id `k`. -/
def firstUnits (db : Db) (k : Int) : Int :=
  match db.live.find? (fun s => decide (s.id = k)) with
  | some r => r.score.units
  | none => 0

/-- The exact sum of `firstUnits db k` over the ids `k = 1 .. T`. -/
def unitsSum (db : Db) (T : Nat) : Int :=
  ((List.range T).map (fun (t : Nat) => firstUnits db ((t : Int) + 1))).sum

/-- The addition `a + b` does not round: the result is finite and denotes the
exact sum (so both operands are finite too). -/
def AddExact (a b : Float32) : Prop :=
  (a.add b).isFinite = true ∧ (a.add b).units = a.units + b.units

instance (a b : Float32) : Decidable (AddExact a b) := by
  unfold AddExact; exact inferInstance

/-- No addition rounds when the list is summed from the left onto `acc`. -/
def SumExact : Float32 → List Float32 → Prop
  | _, [] => True
  | acc, x :: xs => AddExact acc x ∧ SumExact (acc.add x) xs

/-- Decision procedure for `SumExact`. -/
def decSumExact : ∀ (acc : Float32) (xs : List Float32), Decidable (SumExact acc xs)
  | _, [] => isTrue trivial
  | acc, x :: xs => @instDecidableAnd _ _ (inferInstance) (decSumExact (acc.add x) xs)

instance (acc : Float32) (xs : List Float32) : Decidable (SumExact acc xs) :=
  decSumExact acc xs

/-- The division of `s` by the integer `T`, converted to `float`, does not
round: the result is finite and denotes exactly `s / T`. -/
def DivExact (s : Float32) (T : Int) : Prop :=
  (s.div (Float32.ofInt T)).isFinite = true ∧
    (s.div (Float32.ofInt T)).units * T = s.units

instance (s : Float32) (T : Int) : Decidable (DivExact s T) := by
  unfold DivExact; exact inferInstance

/-- The float `100.0f / 3` rounded: `33.3333321` (`0x42055555`). -/
def f33 : Float32 := ⟨false, 132, 349525⟩

/-- The float `91.25f` (`0x42B68000`). -/
def f91_25 : Float32 := ⟨false, 133, 3571712⟩

/-- The state `add_student("N", NaN)` leaves on a fresh process: the record
`{1, "N", NaN}` stored, counter at 2. -/
def nanWorld : World := ⟨⟨(emptyDb.students.set 0 ⟨1, nameBuf [78], Float32.qnan⟩), 1⟩, 2⟩

/-- One record `{1, "Al", 2.0f}` stored, counter at 4. -/
def twoThirdsWorld : World :=
  ⟨(db_add_student emptyDb (some ⟨1, nameBuf [65, 108], ⟨false, 128, 0⟩⟩)).1, 4⟩

/-- One record `{1, "Al", 100.0f}` stored, counter at 4. -/
def thirdWorld : World :=
  ⟨(db_add_student emptyDb (some ⟨1, nameBuf [65, 108], Float32.hundred⟩)).1, 4⟩

/-! ## Call sequences on the whole program -/

/-- One call of the public interface (`student_manager.h`, `database.h`),
with its arguments. -/
inductive Call where
  | add (name : Option (List Nat)) (score : Float32)
  | update (id : Int) (score : Float32)
  | average
  | total
  | dbInit
  | dbAdd (student : Option Student)
  | dbGet (id : Int) (student : Option Student)
  | dbUpdate (id : Int) (score : Float32)
  | dbDelete (id : Int)
deriving DecidableEq, Repr

/-- The program state after the call. -/
def Call.step (w : World) : Call → World
  | .add nm sc => (add_student w nm sc).1
  | .update id sc => (update_student_score w id sc).1
  | .average => (get_average_score w).1
  | .total => w
  | .dbInit => { w with db := (db_init w.db).1 }
  | .dbAdd p => { w with db := (db_add_student w.db p).1 }
  | .dbGet id out => { w with db := (db_get_student w.db id out).1 }
  | .dbUpdate id sc => { w with db := (db_update_score w.db id sc).1 }
  | .dbDelete id => { w with db := (db_delete_student w.db id).1 }

/-- The call is a direct `db_add_student`. -/
def Call.isDbAdd : Call → Bool
  | .dbAdd _ => true
  | _ => false

/-- The program state reached from `w` by the calls `cs`, in order. -/
def runWorld (w : World) (cs : List Call) : World := cs.foldl Call.step w

/-- Before each call of `cs`, run from `w`, the id counter is below
`INT32_MAX`, so that no `g_next_id++` overflows. -/
def CounterBelowMax : World → List Call → Prop
  | _, [] => True
  | w, c :: cs => w.g_next_id < 2147483647 ∧ CounterBelowMax (c.step w) cs

/-- Decision procedure for `CounterBelowMax`. -/
def decCounterBelowMax : ∀ (w : World) (cs : List Call), Decidable (CounterBelowMax w cs)
  | _, [] => isTrue trivial
  | w, c :: cs =>
    @instDecidableAnd _ _ (inferInstance) (decCounterBelowMax (c.step w) cs)

instance (w : World) (cs : List Call) : Decidable (CounterBelowMax w cs) :=
  decCounterBelowMax w cs

/-- The ids of the live records, in order. -/
def Db.ids (db : Db) : List Int := db.live.map (fun s => s.id)

/-- Invariant of the program when records enter the store through
`add_student` only: the store is well formed, the counter is positive, and
the live ids are pairwise distinct, positive and below the counter. -/
def World.Inv (w : World) : Prop :=
  w.db.WF ∧ 1 ≤ w.g_next_id ∧ w.db.ids.Nodup ∧
    ∀ k ∈ w.db.ids, 0 < k ∧ k < w.g_next_id

/-- The record `add_student` builds from its arguments and the counter. -/
def newStudent (w : World) (name : Option (List Nat)) (sc : Float32) : Student :=
  { id := w.g_next_id, name := strncpy (name.getD []) 63 ++ [0], score := sc }

/-- A sample session: two students added, the first deleted, the average
read, a third student added. -/
def sampleCalls : List Call :=
  [.add (some [65, 108]) f95_5, .add (some [66, 111, 98]) f87, .dbDelete 1,
   .average, .add (some [67]) f87, .update 2 f95_5, .dbGet 3 (some alice)]

/-- A full store with the counter at 101. -/
def fullWorld : World := ⟨fullDb, 101⟩

/-- A full store with the counter at `INT32_MAX`. -/
def maxWorld : World := ⟨fullDb, 2147483647⟩

/-- A full store with the counter at `INT32_MIN`, the state `add_student`
leaves when called on `maxWorld`. -/
def minWorld : World := ⟨fullDb, -2147483648⟩

/-! ## The scan loop -/

/-- The loop either runs out (no slot of its range matches) or stops at the
first matching slot of its range. -/
theorem scan_loop_cases {α : Type} (a : List Student) (id : Int) (hit : Nat → α)
    (miss : α) (n i : Nat) :
    (scan_loop a id hit miss n i = miss ∧
        ∀ j, i ≤ j → j < i + n → (slot a j).id ≠ id) ∨
    (∃ j, i ≤ j ∧ j < i + n ∧ (slot a j).id = id ∧
        (∀ k, i ≤ k → k < j → (slot a k).id ≠ id) ∧
        scan_loop a id hit miss n i = hit j) := by
  induction n generalizing i with
  | zero => left; exact ⟨rfl, fun j h1 h2 => by omega⟩
  | succ n ih =>
    by_cases h : (slot a i).id = id
    · right
      exact ⟨i, le_refl _, by omega, h, fun k h1 h2 => by omega, by simp [scan_loop, h]⟩
    · rcases ih (i + 1) with ⟨h1, h2⟩ | ⟨j, hj1, hj2, hj3, hj4, hj5⟩
      · left
        refine ⟨by simp [scan_loop, h, h1], fun j hj1 hj2 => ?_⟩
        rcases Nat.eq_or_lt_of_le hj1 with rfl | hlt
        · exact h
        · exact h2 j hlt (by omega)
      · right
        refine ⟨j, by omega, by omega, hj3, fun k hk1 hk2 => ?_,
          by simp [scan_loop, h, hj5]⟩
        rcases Nat.eq_or_lt_of_le hk1 with rfl | hlt
        · exact h
        · exact hj4 k hlt hk2

theorem slot_eq_getElem (a : List Student) (j : Nat) (h : j < a.length) :
    slot a j = a[j] := by
  simp [slot, List.getD_eq_getElem?_getD, h]

theorem slot_take (a : List Student) (n j : Nat) (h : j < n) :
    slot (a.take n) j = slot a j := by
  simp [slot, List.getD_eq_getElem?_getD, List.getElem?_take, h]

theorem Db.live_length (db : Db) (h : db.WF) :
    db.live.length = db.student_count.toNat := by
  obtain ⟨h1, h2, h3⟩ := h
  unfold Db.live
  rw [List.length_take]
  unfold MAX_STUDENTS at *
  omega

theorem Db.slot_live (db : Db) (j : Nat) (h : j < db.student_count.toNat) :
    slot db.live j = slot db.students j :=
  slot_take _ _ _ h

theorem Db.hasKey_iff (db : Db) (h : db.WF) (k : Int) :
    db.HasKey k ↔ ∃ j, j < db.student_count.toNat ∧ (slot db.students j).id = k := by
  have hlen := db.live_length h
  constructor
  · rintro ⟨s, hs, hk⟩
    obtain ⟨j, hj, rfl⟩ := List.getElem_of_mem hs
    refine ⟨j, by omega, ?_⟩
    rw [← db.slot_live j (by omega), slot_eq_getElem _ _ hj]
    exact hk
  · rintro ⟨j, hj, hk⟩
    refine ⟨db.live[j], List.getElem_mem _, ?_⟩
    rw [← slot_eq_getElem _ _ (by omega), db.slot_live j hj]
    exact hk

theorem Db.FirstMatch.hasKey {db : Db} {k : Int} {i : Nat} (h : db.FirstMatch k i) :
    db.HasKey k := by
  have hi : i < db.live.length := h.1
  exact ⟨db.live[i], List.getElem_mem _, by rw [← slot_eq_getElem _ _ hi]; exact h.2.1⟩

theorem Db.FirstMatch.unique {db : Db} {k : Int} {i j : Nat}
    (hi : db.FirstMatch k i) (hj : db.FirstMatch k j) : i = j := by
  rcases Nat.lt_trichotomy i j with h | h | h
  · exact absurd hi.2.1 (hj.2.2 i h)
  · exact h
  · exact absurd hj.2.1 (hi.2.2 j h)

/-- On a well-formed store the scan over the live slots either misses, and no
live record has the id, or stops at the first live record with the id. -/
theorem scan_live {α : Type} (db : Db) (h : db.WF) (id : Int) (hit : Nat → α)
    (miss : α) :
    (¬ db.HasKey id ∧
        scan_loop db.students id hit miss db.student_count.toNat 0 = miss) ∨
    (∃ i, db.FirstMatch id i ∧
        scan_loop db.students id hit miss db.student_count.toNat 0 = hit i) := by
  have hlen := db.live_length h
  rcases scan_loop_cases db.students id hit miss db.student_count.toNat 0 with
    ⟨h1, h2⟩ | ⟨j, _, hj2, hj3, hj4, hj5⟩
  · left
    refine ⟨?_, h1⟩
    rw [db.hasKey_iff h]
    rintro ⟨j, hj, hk⟩
    exact h2 j (Nat.zero_le _) (by omega) hk
  · right
    refine ⟨j, ⟨by omega, ?_, fun k hk => ?_⟩, hj5⟩
    · rw [db.slot_live j (by omega)]; exact hj3
    · rw [db.slot_live k (by omega)]; exact hj4 k (Nat.zero_le _) hk


/-! ## Append -/

theorem db_add_student_some (db : Db) (s : Student)
    (hc : db.student_count < (MAX_STUDENTS : Int)) :
    db_add_student db (some s) =
      ({ students := db.students.set db.student_count.toNat s,
         student_count := db.student_count + 1 }, 0) := by
  simp [db_add_student, not_le.mpr hc]

theorem db_add_student_live (db : Db) (hwf : db.WF) (s : Student)
    (hc : db.student_count < (MAX_STUDENTS : Int)) :
    (db_add_student db (some s)).1.live = db.live ++ [s] := by
  obtain ⟨h1, h2, h3⟩ := hwf
  rw [db_add_student_some db s hc]
  have hn : db.student_count.toNat < db.students.length := by
    unfold MAX_STUDENTS at *; omega
  have e : (db.student_count + 1).toNat = db.student_count.toNat + 1 := by omega
  simp only [Db.live, e]
  rw [List.set_eq_take_append_cons_drop, if_pos hn]
  have hl : (List.take db.student_count.toNat db.students).length
      = db.student_count.toNat := by
    rw [List.length_take]; omega
  rw [List.take_append_eq_append_take, hl]
  simp [List.take_take]

theorem db_add_student_wf (db : Db) (hwf : db.WF) (p : Option Student) :
    (db_add_student db p).1.WF := by
  obtain ⟨h1, h2, h3⟩ := hwf
  unfold db_add_student
  split
  · exact ⟨h1, h2, h3⟩
  · cases p with
    | none => exact ⟨h1, h2, h3⟩
    | some s =>
      refine ⟨by simpa using h1, ?_, ?_⟩
      · show 0 ≤ db.student_count + 1
        omega
      · show db.student_count + 1 ≤ (MAX_STUDENTS : Int)
        omega

theorem slot_append_left (l : List Student) (r : Student) (i : Nat) (h : i < l.length) :
    slot (l ++ [r]) i = slot l i := by
  simp [slot, List.getD_eq_getElem?_getD, List.getElem?_append_left, h]

theorem slot_append_length (l : List Student) (r : Student) :
    slot (l ++ [r]) l.length = r := by
  simp [slot, List.getD_eq_getElem?_getD]


/-! ## Lookup -/

/-- Outcome of `db_get_student` with a non-null output slot. -/
theorem db_get_student_cases (db : Db) (hwf : db.WF) (k : Int) (old : Student) :
    (¬ db.HasKey k ∧ db_get_student db k (some old) = (db, -1, some old)) ∨
    (∃ i, db.FirstMatch k i ∧
        db_get_student db k (some old) = (db, 0, some (slot db.live i))) := by
  have hlen := db.live_length hwf
  rcases scan_live db hwf k (fun i => (db, (0 : Int), some (slot db.students i)))
      (db, -1, some old) with ⟨h1, h2⟩ | ⟨i, hi, h2⟩
  · left; exact ⟨h1, h2⟩
  · right
    refine ⟨i, hi, ?_⟩
    have hi1 : i < db.live.length := hi.1
    rw [db.slot_live i (by omega)]
    exact h2

/-- C7. With a non-null output slot, `db_get_student(k)` returns 0 iff some
live record has id `k`; it then writes the live record of smallest index whose
id is `k`; otherwise it returns -1 (and leaves the slot as it was). -/
theorem db_get_student_first_match (db : Db) (hwf : db.WF) (k : Int) (old : Student) :
    ((db_get_student db k (some old)).2.1 = 0 ↔ db.HasKey k) ∧
    (db.HasKey k → ∃ i, db.FirstMatch k i ∧
        (db_get_student db k (some old)).2 = (0, some (slot db.live i))) ∧
    (¬ db.HasKey k → (db_get_student db k (some old)).2 = (-1, some old)) := by
  rcases db_get_student_cases db hwf k old with ⟨h1, h2⟩ | ⟨i, hi, h2⟩
  · rw [h2]
    exact ⟨⟨fun h => by simp at h, fun h => absurd h h1⟩,
      fun h => absurd h h1, fun _ => rfl⟩
  · rw [h2]
    exact ⟨⟨fun _ => hi.hasKey, fun _ => rfl⟩, fun _ => ⟨i, hi, rfl⟩,
      fun h => absurd hi.hasKey h⟩

set_option maxRecDepth 100000 in
theorem db_get_student_first_match_witness :
    ((db_get_student dupDb 1 (some Student.zeroed)).2.1 = 0 ↔ dupDb.HasKey 1) ∧
    (dupDb.HasKey 1 → ∃ i, dupDb.FirstMatch 1 i ∧
        (db_get_student dupDb 1 (some Student.zeroed)).2 = (0, some (slot dupDb.live i))) ∧
    (¬ dupDb.HasKey 1 →
        (db_get_student dupDb 1 (some Student.zeroed)).2 = (-1, some Student.zeroed)) :=
  db_get_student_first_match dupDb (by decide) 1 Student.zeroed

/-! ## C1: append then lookup -/

set_option maxRecDepth 100000 in
/-- C1 fails as stated: the store `oneDb` holds `alice` (id 1) and has room;
`bob` is a valid record with id 1; appending `bob` succeeds, yet the lookup of
id 1 that follows returns `alice`, whose name and score differ from those of `bob`. -/
theorem add_then_get_counterexample :
    oneDb.WF ∧ oneDb.student_count < 100 ∧ ValidRecord bob ∧
    (db_add_student oneDb (some bob)).2 = 0 ∧
    (db_get_student (db_add_student oneDb (some bob)).1 bob.id (some Student.zeroed)).2
      = (0, some alice) ∧
    alice.name ≠ bob.name ∧ alice.score ≠ bob.score := by
  decide

/-- C1 (amended). On a store with fewer than 100 live entries none of which
has the id of the valid record `r`, `db_add_student(r)` returns 0 and the
lookup of `r.id` that follows returns 0 and writes a record equal to `r`. -/
theorem add_then_get_fresh (db : Db) (hwf : db.WF)
    (hc : db.student_count < (MAX_STUDENTS : Int)) (r : Student) (_hv : ValidRecord r)
    (hfresh : ¬ db.HasKey r.id) (old : Student) :
    (db_add_student db (some r)).2 = 0 ∧
    (db_get_student (db_add_student db (some r)).1 r.id (some old)).2 = (0, some r) := by
  have hlive := db_add_student_live db hwf r hc
  have hwf2 := db_add_student_wf db hwf (some r)
  refine ⟨by rw [db_add_student_some db r hc], ?_⟩
  rcases db_get_student_cases _ hwf2 r.id old with ⟨h1, _⟩ | ⟨i, hi, h2⟩
  · exact absurd ⟨r, by rw [hlive]; simp, rfl⟩ h1
  · rw [h2]
    obtain ⟨hi1, hi2, _⟩ := hi
    rw [hlive] at hi1 hi2 ⊢
    have hle : i ≤ db.live.length := by
      simp at hi1; omega
    rcases Nat.eq_or_lt_of_le hle with rfl | hlt
    · rw [slot_append_length]
    · rw [slot_append_left _ _ _ hlt] at hi2
      exact absurd ⟨db.live[i], List.getElem_mem _,
        by rw [← slot_eq_getElem _ _ hlt]; exact hi2⟩ hfresh

set_option maxRecDepth 100000 in
theorem add_then_get_fresh_witness :
    (db_add_student oneDb (some bob2)).2 = 0 ∧
    (db_get_student (db_add_student oneDb (some bob2)).1 bob2.id (some alice)).2
      = (0, some bob2) :=
  add_then_get_fresh oneDb (by decide) (by decide) bob2 (by decide) (by decide) alice


/-! ## Delete -/

theorem memmove_length (a : List Student) (dst src n : Nat) :
    (memmove a dst src n).length = a.length := by
  simp [memmove]

theorem getElem?_memmove (a : List Student) (dst src n j : Nat) (hj : j < a.length) :
    (memmove a dst src n)[j]? =
      some (if dst ≤ j ∧ j < dst + n then slot a (src + (j - dst)) else slot a j) := by
  simp [memmove, List.getElem?_map, List.getElem?_range hj]

/-- Shifting the slots after `i` one place down and keeping `c - 1` slots is
the removal of index `i` from the first `c` slots. -/
theorem take_memmove_eq_eraseIdx (a : List Student) (c i : Nat) (hi : i < c)
    (hc : c ≤ a.length) :
    (memmove a i (i + 1) (c - i - 1)).take (c - 1) = (a.take c).eraseIdx i := by
  apply List.ext_getElem?
  intro j
  rw [List.getElem?_take, List.getElem?_eraseIdx, List.getElem?_take, List.getElem?_take]
  by_cases hj : j < c - 1
  · have hjc : j < c := by omega
    have hj1c : j + 1 < c := by omega
    have hja : j < a.length := by omega
    have hj1a : j + 1 < a.length := by omega
    rw [getElem?_memmove a _ _ _ j hja]
    by_cases hji : j < i
    · have hnle : ¬ i ≤ j := by omega
      simp [hj, hji, hjc, hnle, slot_eq_getElem a j hja, List.getElem?_eq_getElem hja]
    · have hle : i ≤ j := by omega
      have hlt : j < i + (c - i - 1) := by omega
      have e : i + 1 + (j - i) = j + 1 := by omega
      simp [hj, hji, hj1c, hle, hlt, e, slot_eq_getElem a (j + 1) hj1a,
        List.getElem?_eq_getElem hj1a]
  · have hnji : ¬ j < i := by omega
    have hnj1c : ¬ j + 1 < c := by omega
    simp [hj, hnji, hnj1c]

/-- Outcome of `db_delete_student`. -/
theorem db_delete_student_cases (db : Db) (hwf : db.WF) (k : Int) :
    (¬ db.HasKey k ∧ db_delete_student db k = (db, -1)) ∨
    (∃ i, db.FirstMatch k i ∧ (db_delete_student db k).2 = 0 ∧
        (db_delete_student db k).1.live = db.live.eraseIdx i ∧
        (db_delete_student db k).1.student_count = db.student_count - 1 ∧
        (db_delete_student db k).1.students.length = db.students.length) := by
  have hlen := db.live_length hwf
  obtain ⟨h1, h2, h3⟩ := hwf
  unfold db_delete_student
  rcases scan_live db ⟨h1, h2, h3⟩ k
      (fun i =>
        (({ students :=
              memmove db.students i (i + 1) (db.student_count - (i : Int) - 1).toNat,
            student_count := db.student_count - 1 } : Db), (0 : Int)))
      (db, -1) with ⟨hn, hr⟩ | ⟨i, hi, hr⟩
  · left; exact ⟨hn, hr⟩
  · right
    refine ⟨i, hi, ?_⟩
    rw [hr]
    have hi1 : i < db.live.length := hi.1
    refine ⟨rfl, ?_, rfl, memmove_length _ _ _ _⟩
    have e1 : (db.student_count - (i : Int) - 1).toNat = db.student_count.toNat - i - 1 := by
      omega
    have e2 : (db.student_count - 1).toNat = db.student_count.toNat - 1 := by omega
    simp only [Db.live, e1, e2]
    exact take_memmove_eq_eraseIdx db.students db.student_count.toNat i (by omega)
      (by unfold MAX_STUDENTS at *; omega)

theorem db_delete_student_wf (db : Db) (hwf : db.WF) (k : Int) :
    (db_delete_student db k).1.WF := by
  have hlen := db.live_length hwf
  rcases db_delete_student_cases db hwf k with ⟨_, hr⟩ | ⟨i, hi, _, _, hc, hl⟩
  · rw [hr]; exact hwf
  · obtain ⟨h1, h2, h3⟩ := hwf
    have hi1 : i < db.live.length := hi.1
    exact ⟨by rw [hl]; exact h1, by rw [hc]; omega, by rw [hc]; omega⟩

/-- C2. `db_delete_student(k)` returns 0 iff some live record has id `k`; it
then leaves the live sequence with the first record of id `k` removed (all
others kept, in order) and `student_count` one smaller; otherwise it returns
-1 and changes nothing. -/
theorem db_delete_student_removes_first (db : Db) (hwf : db.WF) (k : Int) :
    ((db_delete_student db k).2 = 0 ↔ db.HasKey k) ∧
    (db.HasKey k → ∃ i, db.FirstMatch k i ∧
        (db_delete_student db k).1.live = db.live.eraseIdx i ∧
        (db_delete_student db k).1.student_count = db.student_count - 1) ∧
    (¬ db.HasKey k → db_delete_student db k = (db, -1)) := by
  rcases db_delete_student_cases db hwf k with ⟨hn, hr⟩ | ⟨i, hi, h0, hl, hc, _⟩
  · rw [hr]
    exact ⟨⟨fun h => by simp at h, fun h => absurd h hn⟩, fun h => absurd h hn,
      fun _ => rfl⟩
  · exact ⟨⟨fun _ => hi.hasKey, fun _ => h0⟩, fun _ => ⟨i, hi, hl, hc⟩,
      fun h => absurd hi.hasKey h⟩

set_option maxRecDepth 100000 in
theorem db_delete_student_removes_first_witness :
    ((db_delete_student twoDb 2).2 = 0 ↔ twoDb.HasKey 2) ∧
    (twoDb.HasKey 2 → ∃ i, twoDb.FirstMatch 2 i ∧
        (db_delete_student twoDb 2).1.live = twoDb.live.eraseIdx i ∧
        (db_delete_student twoDb 2).1.student_count = twoDb.student_count - 1) ∧
    (¬ twoDb.HasKey 2 → db_delete_student twoDb 2 = (twoDb, -1)) :=
  db_delete_student_removes_first twoDb (by decide) 2


/-- When at most one record of `l` has id `k` and the record at index `i` is
one, no record of `l.eraseIdx i` has id `k`. -/
theorem no_key_after_eraseIdx (l : List Student) (k : Int) (i : Nat) (hi : i < l.length)
    (hk : (l[i]).id = k) (hc : l.countP (fun s => decide (s.id = k)) ≤ 1) :
    ∀ s ∈ l.eraseIdx i, s.id ≠ k := by
  have e : l = l.take i ++ l[i] :: l.drop (i + 1) := by simp
  rw [e, List.countP_append, List.countP_cons] at hc
  simp only [hk, decide_True, if_true] at hc
  intro s hs hsk
  rw [List.eraseIdx_eq_take_drop_succ, List.mem_append] at hs
  rcases hs with hs | hs
  · have : 0 < (l.take i).countP (fun s => decide (s.id = k)) :=
      List.countP_pos_iff.mpr ⟨s, hs, by simpa using hsk⟩
    omega
  · have : 0 < (l.drop (i + 1)).countP (fun s => decide (s.id = k)) :=
      List.countP_pos_iff.mpr ⟨s, hs, by simpa using hsk⟩
    omega

/-- After a successful delete of `k` from a store in which at most one live
record has id `k`, no live record has id `k`. -/
theorem not_hasKey_after_delete (db : Db) (hwf : db.WF) (k : Int)
    (hok : (db_delete_student db k).2 = 0) (huniq : db.keyCount k ≤ 1) :
    ¬ (db_delete_student db k).1.HasKey k := by
  rcases db_delete_student_cases db hwf k with ⟨_, hr⟩ | ⟨i, hi, _, hl, _, _⟩
  · rw [hr] at hok; simp at hok
  · rintro ⟨s, hs, hsk⟩
    rw [hl] at hs
    have hi1 : i < db.live.length := hi.1
    have hk : (db.live[i]).id = k := by
      rw [← slot_eq_getElem _ _ hi1]; exact hi.2.1
    exact no_key_after_eraseIdx db.live k i hi1 hk huniq s hs hsk

/-! ## C3: lookup after delete -/

set_option maxRecDepth 100000 in
/-- C3 fails as stated: `dupDb` holds two live records with id 1; deleting id 1
succeeds and the lookup of id 1 that follows succeeds too, returning the
second record. -/
theorem get_after_delete_counterexample :
    dupDb.WF ∧ (db_delete_student dupDb 1).2 = 0 ∧
    (db_get_student (db_delete_student dupDb 1).1 1 (some Student.zeroed)).2 = (0, some bob) := by
  decide

/-- C3 (amended). If `db_delete_student(k)` succeeds on a store in which at most
one live record has id `k`, the lookup of `k` that follows fails: it returns
-1, a non-zero value, and leaves the output slot as it was. -/
theorem get_after_delete_unique (db : Db) (hwf : db.WF) (k : Int)
    (hok : (db_delete_student db k).2 = 0) (huniq : db.keyCount k ≤ 1) (old : Student) :
    (db_get_student (db_delete_student db k).1 k (some old)).2.1 ≠ 0 ∧
    (db_get_student (db_delete_student db k).1 k (some old)).2 = (-1, some old) := by
  have hno := not_hasKey_after_delete db hwf k hok huniq
  have hwf2 := db_delete_student_wf db hwf k
  rcases db_get_student_cases _ hwf2 k old with ⟨_, hr⟩ | ⟨i, hi, _⟩
  · rw [hr]; exact ⟨by simp, rfl⟩
  · exact absurd hi.hasKey hno

set_option maxRecDepth 100000 in
theorem get_after_delete_unique_witness :
    (db_get_student (db_delete_student twoDb 1).1 1 (some Student.zeroed)).2.1 ≠ 0 ∧
    (db_get_student (db_delete_student twoDb 1).1 1 (some Student.zeroed)).2
      = (-1, some Student.zeroed) :=
  get_after_delete_unique twoDb (by decide) 1 (by decide) (by decide) Student.zeroed

/-! ## C4: delete twice -/

set_option maxRecDepth 100000 in
/-- C4 fails as stated: on `dupDb` (two live records with id 1) the first
delete of id 1 returns 0 and so does the second. -/
theorem delete_twice_counterexample :
    dupDb.WF ∧ (db_delete_student dupDb 1).2 = 0 ∧
    (db_delete_student (db_delete_student dupDb 1).1 1).2 = 0 := by
  decide

/-- C4 (amended). If `db_delete_student(k)` succeeds on a store in which at most
one live record has id `k`, a second `db_delete_student(k)` returns -1 and
changes nothing. -/
theorem delete_twice_unique (db : Db) (hwf : db.WF) (k : Int)
    (hok : (db_delete_student db k).2 = 0) (huniq : db.keyCount k ≤ 1) :
    db_delete_student (db_delete_student db k).1 k = ((db_delete_student db k).1, -1) := by
  have hno := not_hasKey_after_delete db hwf k hok huniq
  have hwf2 := db_delete_student_wf db hwf k
  rcases db_delete_student_cases _ hwf2 k with ⟨_, hr⟩ | ⟨i, hi, _⟩
  · exact hr
  · exact absurd hi.hasKey hno

set_option maxRecDepth 100000 in
theorem delete_twice_unique_witness :
    db_delete_student (db_delete_student twoDb 2).1 2 = ((db_delete_student twoDb 2).1, -1) :=
  delete_twice_unique twoDb (by decide) 2 (by decide) (by decide)


/-! ## C5, C6: the append contract -/

/-- C5. On a store with exactly 100 live entries `db_add_student` returns -1
for every argument, null or not, and the state (count and every slot) is
unchanged. -/
theorem db_add_student_full (db : Db) (hfull : db.student_count = 100)
    (p : Option Student) : db_add_student db p = (db, -1) := by
  simp [db_add_student, hfull, MAX_STUDENTS]

set_option maxRecDepth 1000000 in
theorem db_add_student_full_witness :
    fullDb.WF ∧ fullDb.student_count = 100 ∧
    db_add_student fullDb (some bob) = (fullDb, -1) ∧
    db_add_student fullDb none = (fullDb, -1) :=
  ⟨by decide, by decide, db_add_student_full fullDb (by decide) (some bob),
    db_add_student_full fullDb (by decide) none⟩

/-- C6. `db_add_student(p)` returns 0 iff `student_count < 100` and `p` is
non-null. When it does, the live sequence is the old one followed by the
record, whatever its id, and `student_count` is one larger; when it does not,
it returns -1 and nothing changes. -/
theorem db_add_student_appends (db : Db) (hwf : db.WF) (p : Option Student) :
    ((db_add_student db p).2 = 0 ↔ (db.student_count < 100 ∧ p.isSome = true)) ∧
    (∀ s, p = some s → db.student_count < 100 →
        (db_add_student db p).1.live = db.live ++ [s] ∧
        (db_add_student db p).1.student_count = db.student_count + 1) ∧
    ((db_add_student db p).2 ≠ 0 → db_add_student db p = (db, -1)) := by
  have hM : ((MAX_STUDENTS : Nat) : Int) = 100 := rfl
  refine ⟨?_, ?_, ?_⟩
  · by_cases hc : db.student_count < 100
    · have hn : ¬ (100 : Int) ≤ db.student_count := by omega
      cases p with
      | none => simp [db_add_student, hM, hc]
      | some s => simp [db_add_student, hM, hc, hn]
    · have : (100 : Int) ≤ db.student_count := by omega
      simp [db_add_student, hM, hc, this]
  · rintro s rfl hc
    have hc2 : db.student_count < (MAX_STUDENTS : Int) := by rw [hM]; exact hc
    refine ⟨db_add_student_live db hwf s hc2, ?_⟩
    rw [db_add_student_some db s hc2]
  · intro h
    by_cases hc : db.student_count < 100
    · cases p with
      | none => simp [db_add_student, hM, hc]
      | some s =>
        have hc2 : db.student_count < (MAX_STUDENTS : Int) := by rw [hM]; exact hc
        rw [db_add_student_some db s hc2] at h
        simp at h
    · have : (100 : Int) ≤ db.student_count := by omega
      simp [db_add_student, hM, this]

set_option maxRecDepth 100000 in
theorem db_add_student_appends_witness :
    ((db_add_student oneDb (some bob)).2 = 0 ↔
        (oneDb.student_count < 100 ∧ (some bob).isSome = true)) ∧
    (∀ s, some bob = some s → oneDb.student_count < 100 →
        (db_add_student oneDb (some bob)).1.live = oneDb.live ++ [s] ∧
        (db_add_student oneDb (some bob)).1.student_count = oneDb.student_count + 1) ∧
    ((db_add_student oneDb (some bob)).2 ≠ 0 →
        db_add_student oneDb (some bob) = (oneDb, -1)) :=
  db_add_student_appends oneDb (by decide) (some bob)


/-! ## C8: score update -/

/-- Outcome of `db_update_score`. -/
theorem db_update_score_cases (db : Db) (hwf : db.WF) (k : Int) (sc : Float32) :
    (¬ db.HasKey k ∧ db_update_score db k sc = (db, -1)) ∨
    (∃ i, db.FirstMatch k i ∧
        db_update_score db k sc =
          ({ db with students :=
              db.students.set i ((slot db.live i).withScore sc) }, 0)) := by
  have hlen := db.live_length hwf
  unfold db_update_score
  rcases scan_live db hwf k
      (fun i =>
        (({ db with students :=
              db.students.set i ((slot db.students i).withScore sc) } : Db), (0 : Int)))
      (db, -1) with ⟨hn, hr⟩ | ⟨i, hi, hr⟩
  · left; exact ⟨hn, hr⟩
  · right
    have hi1 : i < db.live.length := hi.1
    refine ⟨i, hi, ?_⟩
    rw [db.slot_live i (by omega)]
    exact hr

theorem db_update_score_wf (db : Db) (hwf : db.WF) (k : Int) (sc : Float32) :
    (db_update_score db k sc).1.WF := by
  rcases db_update_score_cases db hwf k sc with ⟨_, hr⟩ | ⟨i, _, hr⟩
  · rw [hr]; exact hwf
  · rw [hr]
    obtain ⟨h1, h2, h3⟩ := hwf
    exact ⟨by simpa using h1, h2, h3⟩

theorem slot_set_self (l : List Student) (i : Nat) (r : Student) (h : i < l.length) :
    slot (l.set i r) i = r := by
  rw [slot_eq_getElem _ _ (by simpa using h)]
  simp

theorem live_set (db : Db) (i : Nat) (r : Student) :
    Db.live { db with students := db.students.set i r } = db.live.set i r := by
  simp [Db.live, List.set_take]

/-- Overwriting the first match with a record of the same id keeps it the
first match. -/
theorem firstMatch_set (db : Db) (k : Int) (i : Nat) (r : Student) (hr : r.id = k)
    (hi : db.FirstMatch k i) :
    Db.FirstMatch { db with students := db.students.set i r } k i := by
  obtain ⟨h1, _, h3⟩ := hi
  unfold Db.FirstMatch
  rw [live_set]
  refine ⟨by simpa using h1, ?_, fun j hj => ?_⟩
  · rw [slot_set_self _ _ _ h1]
    exact hr
  · have hj1 : j < db.live.length := by omega
    rw [slot_eq_getElem _ _ (by simpa using hj1), List.getElem_set_ne (by omega),
      ← slot_eq_getElem _ _ hj1]
    exact h3 j hj

/-- C8. `db_update_score(k, s)` returns 0 iff some live record has id `k`, for
any float `s`. It then changes the array only at the index `i` of the first
live record with id `k`: the record there has score `s`, id `k` and the name
it had before, every other slot keeps its content, `student_count` is
unchanged, and a lookup of `k` that follows returns the record with id `k`,
the old name and score `s`. Otherwise it returns -1 and changes nothing. -/
theorem db_update_score_frame (db : Db) (hwf : db.WF) (k : Int) (sc : Float32)
    (old : Student) :
    ((db_update_score db k sc).2 = 0 ↔ db.HasKey k) ∧
    (db.HasKey k → ∃ i, db.FirstMatch k i ∧
        (db_update_score db k sc).1.students =
          db.students.set i ⟨(slot db.live i).id, (slot db.live i).name, sc⟩ ∧
        (db_update_score db k sc).1.student_count = db.student_count ∧
        (db_update_score db k sc).1.live =
          db.live.set i ⟨(slot db.live i).id, (slot db.live i).name, sc⟩ ∧
        (slot (db_update_score db k sc).1.live i).score = sc ∧
        (slot (db_update_score db k sc).1.live i).id = k ∧
        (slot (db_update_score db k sc).1.live i).name = (slot db.live i).name ∧
        (∀ j, j ≠ i →
          slot (db_update_score db k sc).1.students j = slot db.students j) ∧
        (db_get_student (db_update_score db k sc).1 k (some old)).2 =
          (0, some ⟨k, (slot db.live i).name, sc⟩)) ∧
    (¬ db.HasKey k → db_update_score db k sc = (db, -1)) := by
  rcases db_update_score_cases db hwf k sc with ⟨hn, hr⟩ | ⟨i, hi, hr⟩
  · rw [hr]
    exact ⟨⟨fun h => by simp at h, fun h => absurd h hn⟩, fun h => absurd h hn,
      fun _ => rfl⟩
  · have hwf2 := db_update_score_wf db hwf k sc
    have hfm := firstMatch_set db k i ((slot db.live i).withScore sc) hi.2.1 hi
    rw [hr] at hwf2 ⊢
    have hlive := live_set db i ((slot db.live i).withScore sc)
    have hnew : slot (db.live.set i ((slot db.live i).withScore sc)) i
        = ⟨(slot db.live i).id, (slot db.live i).name, sc⟩ :=
      slot_set_self _ _ _ hi.1
    have hid : (slot db.live i).id = k := hi.2.1
    refine ⟨⟨fun _ => hi.hasKey, fun _ => rfl⟩,
      fun _ => ⟨i, hi, rfl, rfl, hlive, ?_, ?_, ?_, ?_, ?_⟩,
      fun h => absurd hi.hasKey h⟩
    · rw [hlive, hnew]
    · rw [hlive, hnew]; exact hid
    · rw [hlive, hnew]
    · intro j hj
      show slot (db.students.set i ((slot db.live i).withScore sc)) j = slot db.students j
      simp [slot, List.getD_eq_getElem?_getD, List.getElem?_set, Ne.symm hj]
    · rcases db_get_student_cases _ hwf2 k old with ⟨hn, _⟩ | ⟨j, hj, hg⟩
      · exact absurd hfm.hasKey hn
      · have hji : j = i := hj.unique hfm
        subst hji
        rw [hg, hlive, hnew, hid]

set_option maxRecDepth 100000 in
theorem db_update_score_frame_witness :
    (db_update_score dupDb 1 f87).1.live = [⟨1, nameBuf [65, 108], f87⟩, bob] ∧
    ((db_update_score dupDb 1 f87).2 = 0 ↔ dupDb.HasKey 1) ∧
    (dupDb.HasKey 1 → ∃ i, dupDb.FirstMatch 1 i ∧
        (db_update_score dupDb 1 f87).1.students =
          dupDb.students.set i ⟨(slot dupDb.live i).id, (slot dupDb.live i).name, f87⟩ ∧
        (db_update_score dupDb 1 f87).1.student_count = dupDb.student_count ∧
        (db_update_score dupDb 1 f87).1.live =
          dupDb.live.set i ⟨(slot dupDb.live i).id, (slot dupDb.live i).name, f87⟩ ∧
        (slot (db_update_score dupDb 1 f87).1.live i).score = f87 ∧
        (slot (db_update_score dupDb 1 f87).1.live i).id = 1 ∧
        (slot (db_update_score dupDb 1 f87).1.live i).name = (slot dupDb.live i).name ∧
        (∀ j, j ≠ i →
          slot (db_update_score dupDb 1 f87).1.students j = slot dupDb.students j) ∧
        (db_get_student (db_update_score dupDb 1 f87).1 1 (some Student.zeroed)).2 =
          (0, some ⟨1, (slot dupDb.live i).name, f87⟩)) ∧
    (¬ dupDb.HasKey 1 → db_update_score dupDb 1 f87 = (dupDb, -1)) :=
  ⟨by decide, db_update_score_frame dupDb (by decide) 1 f87 Student.zeroed⟩


/-! ## C9: the count stays within the capacity -/

theorem db_init_wf (db : Db) : (db_init db).1.WF := by
  simp [db_init, Db.WF, MAX_STUDENTS]

theorem db_get_student_db (db : Db) (hwf : db.WF) (k : Int) (out : Option Student) :
    (db_get_student db k out).1 = db := by
  cases out with
  | none => rfl
  | some old =>
    rcases db_get_student_cases db hwf k old with ⟨_, hr⟩ | ⟨i, _, hr⟩ <;> rw [hr]

theorem step_wf (db : Db) (hwf : db.WF) (c : DbCall) : (c.step db).WF := by
  cases c with
  | init => exact db_init_wf db
  | add p => exact db_add_student_wf db hwf p
  | get id out =>
    show (db_get_student db id out).1.WF
    rw [db_get_student_db db hwf id out]; exact hwf
  | update id sc => exact db_update_score_wf db hwf id sc
  | delete id => exact db_delete_student_wf db hwf id

theorem foldl_step_wf (cs : List DbCall) (db : Db) (hwf : db.WF) :
    (cs.foldl DbCall.step db).WF := by
  induction cs generalizing db with
  | nil => exact hwf
  | cons c cs ih => exact ih (c.step db) (step_wf db hwf c)

/-- C9. In the store reached from `db_init()` by any finite sequence of
`db_init`, `db_add_student`, `db_get_student`, `db_update_score` and
`db_delete_student` calls with arbitrary arguments,
`0 <= student_count <= 100`. -/
theorem runCalls_count_bounds (cs : List DbCall) :
    0 ≤ (runCalls cs).student_count ∧ (runCalls cs).student_count ≤ 100 := by
  have h := foldl_step_wf cs (db_init ⟨[], 0⟩).1 (db_init_wf _)
  exact ⟨h.2.1, h.2.2⟩


/-! ## C10: `add_student` on the success path -/

set_option maxRecDepth 100000 in
theorem units_hundred : Float32.hundred.units = Float32.hundredUnits := by decide

theorem validate_score_of_inScoreDomain (sc : Float32) (hs : sc.InScoreDomain) :
    validate_score sc = 0 := by
  obtain ⟨h1, h2, h3⟩ := hs
  have hz : Float32.zero.units = 0 := by decide
  have hh := units_hundred
  have a : ¬ sc.units < 0 := by omega
  have b : ¬ Float32.hundredUnits < sc.units := by omega
  simp [validate_score, Float32.lt, Float32.gt, hz, hh, a, b]

theorem validate_student_name_ok (name : List Nat) (h1 : 1 ≤ name.length)
    (h2 : name.length ≤ 63) : validate_student_name (some name) = 0 := by
  have a : name.length ≠ 0 := by omega
  have b : ¬ name.length > 63 := by omega
  simp [validate_student_name, strlen, a, b]

theorem strncpy_name (name : List Nat) (h2 : name.length ≤ 63) :
    strncpy name 63 ++ [0] = nameBuf name := by
  have e : 64 - name.length = (63 - name.length) + 1 := by omega
  simp [strncpy, nameBuf, List.take_of_length_le h2, e, List.replicate_succ']

theorem cstring_append_nul (name rest : List Nat) (hz : ∀ c ∈ name, c ≠ 0) :
    cstring (name ++ 0 :: rest) = name := by
  unfold cstring
  induction name with
  | nil => simp
  | cons c cs ih =>
    have hc : c ≠ 0 := hz c (List.mem_cons_self _ _)
    have ih2 := ih (fun d hd => hz d (List.mem_cons_of_mem _ hd))
    simpa [List.takeWhile_cons, hc] using ih2

theorem cstring_nameBuf (name : List Nat) (h2 : name.length ≤ 63)
    (hz : ∀ c ∈ name, c ≠ 0) : cstring (nameBuf name) = name := by
  have e : 64 - name.length = (63 - name.length) + 1 := by omega
  unfold nameBuf
  rw [e, List.replicate_succ]
  exact cstring_append_nul name _ hz


/-- C10. With id counter `n`, `1 <= n < INT32_MAX`, a store with fewer than
100 live entries, a name of 1 to 63 characters and a score in `[0, 100]`,
`add_student(name, score)` returns `n`, leaves the counter at `n + 1`, and
appends to the store exactly one record: id `n`, the given score, and a name
buffer holding the given characters followed by NUL bytes, which reads back
as the given name. -/
theorem add_student_assigns_next_id (w : World) (hwf : w.db.WF) (name : List Nat)
    (score : Float32) (hn1 : 1 ≤ w.g_next_id) (hn2 : w.g_next_id < 2147483647)
    (hc : w.db.student_count < 100) (hl1 : 1 ≤ name.length) (hl2 : name.length ≤ 63)
    (hs : score.InScoreDomain) :
    (add_student w (some name) score).2 = w.g_next_id ∧
    (add_student w (some name) score).1.g_next_id = w.g_next_id + 1 ∧
    (add_student w (some name) score).1.db.student_count = w.db.student_count + 1 ∧
    (add_student w (some name) score).1.db.live =
      w.db.live ++ [⟨w.g_next_id, nameBuf name, score⟩] ∧
    ((∀ c ∈ name, c ≠ 0) → cstring (nameBuf name) = name) := by
  have hM : ((MAX_STUDENTS : Nat) : Int) = 100 := rfl
  have hc2 : w.db.student_count < (MAX_STUDENTS : Int) := by rw [hM]; exact hc
  have hw : wrap32 (w.g_next_id + 1) = w.g_next_id + 1 := by
    unfold wrap32; omega
  have hadd := db_add_student_some w.db ⟨w.g_next_id, nameBuf name, score⟩ hc2
  have hlive := db_add_student_live w.db hwf ⟨w.g_next_id, nameBuf name, score⟩ hc2
  have hr : add_student w (some name) score =
      ({ db := (db_add_student w.db (some ⟨w.g_next_id, nameBuf name, score⟩)).1,
         g_next_id := w.g_next_id + 1 }, w.g_next_id) := by
    simp [add_student, validate_student_name_ok name hl1 hl2,
      validate_score_of_inScoreDomain score hs, strncpy_name name hl2, hw, hadd]
  rw [hr]
  refine ⟨rfl, rfl, ?_, hlive, cstring_nameBuf name hl2⟩
  rw [hadd]

set_option maxRecDepth 100000 in
theorem add_student_assigns_next_id_witness :
    (add_student freshWorld (some [66, 111, 98]) f87).2 = freshWorld.g_next_id ∧
    (add_student freshWorld (some [66, 111, 98]) f87).1.g_next_id
      = freshWorld.g_next_id + 1 ∧
    (add_student freshWorld (some [66, 111, 98]) f87).1.db.student_count
      = freshWorld.db.student_count + 1 ∧
    (add_student freshWorld (some [66, 111, 98]) f87).1.db.live =
      freshWorld.db.live ++ [⟨freshWorld.g_next_id, nameBuf [66, 111, 98], f87⟩] ∧
    ((∀ c ∈ [66, 111, 98], c ≠ 0) → cstring (nameBuf [66, 111, 98]) = [66, 111, 98]) :=
  add_student_assigns_next_id freshWorld (by decide) [66, 111, 98] f87 (by decide)
    (by decide) (by decide) (by decide) (by decide) (by decide)

/-! ## C14, C16: name and id validation -/

/-- C14. `validate_student_name` returns 0 iff the text is present and its
raw length `n` satisfies `1 <= n <= 63`; for absent text, the empty text and
every text of 64 or more characters it returns -1. -/
theorem validate_student_name_iff (name : Option (List Nat)) :
    (validate_student_name name = 0 ↔
        ∃ s, name = some s ∧ 1 ≤ strlen s ∧ strlen s ≤ 63) ∧
    (validate_student_name none = -1) ∧
    (validate_student_name (some []) = -1) ∧
    (∀ s, name = some s → 64 ≤ strlen s → validate_student_name name = -1) ∧
    (validate_student_name name = 0 ∨ validate_student_name name = -1) := by
  refine ⟨?_, rfl, rfl, ?_, ?_⟩
  · cases name with
    | none => simp [validate_student_name]
    | some s =>
      by_cases h0 : strlen s = 0
      · simp [validate_student_name, h0]
      · by_cases h1 : strlen s > 63
        · have : ¬ strlen s ≤ 63 := by omega
          simp [validate_student_name, h0, h1, this]
        · have a : 1 ≤ strlen s := by omega
          have b : strlen s ≤ 63 := by omega
          simp [validate_student_name, h0, h1, a, b]
  · rintro s rfl h
    have h0 : strlen s ≠ 0 := by omega
    have h1 : strlen s > 63 := by omega
    simp [validate_student_name, h0, h1]
  · cases name with
    | none => right; rfl
    | some s =>
      by_cases h0 : strlen s = 0
      · right; simp [validate_student_name, h0]
      · by_cases h1 : strlen s > 63
        · right; simp [validate_student_name, h0, h1]
        · left; simp [validate_student_name, h0, h1]

theorem validate_student_name_iff_witness :
    (validate_student_name (some (List.replicate 64 65)) = 0 ↔
        ∃ s, some (List.replicate 64 65) = some s ∧ 1 ≤ strlen s ∧ strlen s ≤ 63) ∧
    (validate_student_name none = -1) ∧
    (validate_student_name (some []) = -1) ∧
    (∀ s, some (List.replicate 64 65) = some s → 64 ≤ strlen s →
        validate_student_name (some (List.replicate 64 65)) = -1) ∧
    (validate_student_name (some (List.replicate 64 65)) = 0 ∨
        validate_student_name (some (List.replicate 64 65)) = -1) :=
  validate_student_name_iff (some (List.replicate 64 65))

/-- C16. `validate_student_id(id)` returns 0 iff `id >= 1`, and -1 for 0 and
for every negative value. -/
theorem validate_student_id_iff (id : Int) :
    (validate_student_id id = 0 ↔ 1 ≤ id) ∧
    (id ≤ 0 → validate_student_id id = -1) := by
  by_cases h : id ≤ 0
  · have : ¬ 1 ≤ id := by omega
    simp [validate_student_id, h, this]
  · have : 1 ≤ id := by omega
    simp [validate_student_id, h, this]

theorem validate_student_id_iff_witness :
    (validate_student_id 0 = 0 ↔ (1 : Int) ≤ 0) ∧
    ((0 : Int) ≤ 0 → validate_student_id 0 = -1) :=
  validate_student_id_iff 0

/-! ## C15: score validation -/

theorem isNaN_zero : Float32.zero.isNaN = false := by decide

theorem isNaN_hundred : Float32.hundred.isNaN = false := by decide

theorem units_zero : Float32.zero.units = 0 := by decide

/-- What `validate_score` accepts: the floats denoting a number of `[0, 100]`,
and every NaN. -/
theorem validate_score_eq_zero_iff (sc : Float32) :
    validate_score sc = 0 ↔ (sc.isNaN = true ∨ sc.InScoreDomain) := by
  unfold validate_score Float32.gt Float32.lt Float32.InScoreDomain
  rw [isNaN_zero, isNaN_hundred, units_zero, units_hundred]
  cases hn : sc.isNaN with
  | true => simp
  | false =>
    by_cases h1 : sc.units < 0
    · have : ¬ 0 ≤ sc.units := by omega
      simp [h1, this]
    · by_cases h2 : Float32.hundredUnits < sc.units
      · have : ¬ sc.units ≤ Float32.hundredUnits := by omega
        simp [h1, h2, this]
      · have a : 0 ≤ sc.units := by omega
        have b : sc.units ≤ Float32.hundredUnits := by omega
        simp [h1, h2, a, b]

/-- What `validate_score` rejects: the floats denoting a number below 0 or
above 100 (the infinities included). It returns -1 for them. -/
theorem validate_score_eq_neg_one_iff (sc : Float32) :
    validate_score sc = -1 ↔ (sc.BelowZero ∨ sc.AboveHundred) := by
  unfold validate_score Float32.gt Float32.lt Float32.BelowZero Float32.AboveHundred
  rw [isNaN_zero, isNaN_hundred, units_zero, units_hundred]
  cases hn : sc.isNaN with
  | true => simp
  | false =>
    by_cases h1 : sc.units < 0
    · simp [h1]
    · by_cases h2 : Float32.hundredUnits < sc.units
      · simp [h1, h2]
      · simp [h1, h2]

set_option maxRecDepth 100000 in
/-- C15 (defect). The quiet NaN `0x7FC00000` denotes no number of `[0, 100]`,
yet `validate_score` returns 0 for it: both comparisons `score < 0.0f` and
`score > 100.0f` are false on a NaN. The bounds 0.0 and 100.0 are accepted and
-1.0 and 101.0 are rejected, as the claim says. -/
theorem validate_score_accepts_nan :
    validate_score Float32.qnan = 0 ∧ ¬ Float32.qnan.InScoreDomain ∧
    Float32.qnan.isNaN = true ∧
    validate_score Float32.zero = 0 ∧ validate_score Float32.hundred = 0 ∧
    validate_score fNeg1 = -1 ∧ validate_score f101 = -1 := by
  decide

/-! ## C11: `add_student` on rejected input -/

/-- C11. `add_student(name, score)` returns -1 and changes neither the id
counter nor the store when the name is absent, empty or longer than 63
characters, and when the name is acceptable but the score is below 0 or above
100. -/
theorem add_student_rejects (w : World) (name : Option (List Nat)) (sc : Float32)
    (h : name = none ∨ (∃ s, name = some s ∧ (strlen s = 0 ∨ 63 < strlen s)) ∨
      ((∃ s, name = some s ∧ 1 ≤ strlen s ∧ strlen s ≤ 63) ∧
        (sc.BelowZero ∨ sc.AboveHundred))) :
    add_student w name sc = (w, -1) := by
  rcases h with rfl | ⟨s, rfl, hs⟩ | ⟨⟨s, rfl, h1, h2⟩, hsc⟩
  · simp [add_student, validate_student_name]
  · rcases hs with h0 | h63
    · simp [add_student, validate_student_name, h0]
    · have h0 : strlen s ≠ 0 := by omega
      simp [add_student, validate_student_name, h0, h63]
  · have hv := (validate_score_eq_neg_one_iff sc).mpr hsc
    have h0 : strlen s ≠ 0 := by omega
    have h63 : ¬ strlen s > 63 := by omega
    simp [add_student, validate_student_name, h0, h63, hv]

set_option maxRecDepth 100000 in
theorem add_student_rejects_witness :
    add_student oneWorld none f87 = (oneWorld, -1) ∧
    add_student oneWorld (some []) f87 = (oneWorld, -1) ∧
    add_student oneWorld (some (List.replicate 64 65)) f87 = (oneWorld, -1) ∧
    add_student oneWorld (some [66, 111, 98]) fNeg1 = (oneWorld, -1) ∧
    add_student oneWorld (some [66, 111, 98]) f101 = (oneWorld, -1) :=
  ⟨add_student_rejects oneWorld none f87 (Or.inl rfl),
    add_student_rejects oneWorld (some []) f87 (Or.inr (Or.inl ⟨[], rfl, Or.inl rfl⟩)),
    add_student_rejects oneWorld (some (List.replicate 64 65)) f87
      (Or.inr (Or.inl ⟨_, rfl, Or.inr (by decide)⟩)),
    add_student_rejects oneWorld (some [66, 111, 98]) fNeg1
      (Or.inr (Or.inr ⟨⟨_, rfl, by decide, by decide⟩, Or.inl (by decide)⟩)),
    add_student_rejects oneWorld (some [66, 111, 98]) f101
      (Or.inr (Or.inr ⟨⟨_, rfl, by decide, by decide⟩, Or.inr (by decide)⟩))⟩

/-! ## C12: `update_student_score` -/

/-- For a score that is not a NaN, `update_student_score(id, s)` returns 0 iff
`id > 0`, `s` denotes a number of `[0, 100]` and some live record has the id;
otherwise it returns -1; and it leaves the state alone when the id or the
score is invalid. -/
theorem update_student_score_of_not_nan (w : World) (hwf : w.db.WF) (id : Int)
    (sc : Float32) (hn : sc.isNaN = false) :
    ((update_student_score w id sc).2 = 0 ↔
        (0 < id ∧ sc.InScoreDomain ∧ w.db.HasKey id)) ∧
    ((update_student_score w id sc).2 = 0 ∨ (update_student_score w id sc).2 = -1) ∧
    ((id ≤ 0 ∨ ¬ sc.InScoreDomain) → update_student_score w id sc = (w, -1)) := by
  have hz := validate_score_eq_zero_iff sc
  rw [hn] at hz
  simp only [Bool.false_eq_true, false_or] at hz
  by_cases hid : id ≤ 0
  · have hr : update_student_score w id sc = (w, -1) := by
      simp [update_student_score, validate_student_id, hid]
    rw [hr]
    exact ⟨⟨fun h => by simp at h, fun h => by omega⟩, Or.inr rfl, fun _ => rfl⟩
  · by_cases hsc : sc.InScoreDomain
    · have hv : validate_score sc = 0 := hz.mpr hsc
      rcases db_update_score_cases w.db hwf id sc with ⟨hk, hr⟩ | ⟨i, hi, hr⟩
      · have hr2 : update_student_score w id sc = (w, -1) := by
          simp [update_student_score, validate_student_id, hid, hv, hr]
        rw [hr2]
        exact ⟨⟨fun h => by simp at h, fun h => absurd h.2.2 hk⟩, Or.inr rfl,
          fun h => by rcases h with h | h; exact absurd h hid; exact absurd hsc h⟩
      · have hr2 : (update_student_score w id sc).2 = 0 := by
          simp [update_student_score, validate_student_id, hid, hv, hr]
        rw [hr2]
        exact ⟨⟨fun _ => ⟨by omega, hsc, hi.hasKey⟩, fun _ => rfl⟩, Or.inl rfl,
          fun h => by rcases h with h | h; exact absurd h hid; exact absurd hsc h⟩
    · have hv : validate_score sc ≠ 0 := fun h => hsc (hz.mp h)
      have hr : update_student_score w id sc = (w, -1) := by
        simp [update_student_score, validate_student_id, hid, hv]
      rw [hr]
      exact ⟨⟨fun h => by simp at h, fun h => absurd h.2.1 hsc⟩, Or.inr rfl, fun _ => rfl⟩

set_option maxRecDepth 100000 in
/-- C12 (defect). In the state `add_student("Al", 95.5f)` leaves on a fresh
process (record with id 1 stored), `update_student_score(1, NaN)` returns 0
and overwrites the stored score with the NaN, although the NaN denotes no
number of `[0, 100]`: `validate_score` lets it through. -/
theorem update_student_score_accepts_nan :
    (add_student freshWorld (some [65, 108]) f95_5).1 = oneWorld ∧
    oneWorld.db.WF ∧ oneWorld.db.HasKey 1 ∧ ¬ Float32.qnan.InScoreDomain ∧
    (update_student_score oneWorld 1 Float32.qnan).2 = 0 ∧
    (update_student_score oneWorld 1 Float32.qnan).1.db.live
      = [alice.withScore Float32.qnan] ∧
    (update_student_score oneWorld 1 Float32.qnan).1.db ≠ oneWorld.db := by
  decide

/-! ## C19: calls that leave the store alone -/

/-- C19. `db_get_student` returns the store it was given (live sequence and
`student_count` included) for every argument, whether it succeeds or fails;
`db_update_score` and `db_delete_student` do so whenever they return -1. -/
theorem failed_calls_leave_store (db : Db) (k : Int) (out : Option Student)
    (sc : Float32) :
    ((db_get_student db k out).1 = db ∧
      (db_get_student db k out).1.live = db.live ∧
      (db_get_student db k out).1.student_count = db.student_count) ∧
    ((db_update_score db k sc).2 = -1 →
      (db_update_score db k sc).1 = db ∧
      (db_update_score db k sc).1.live = db.live ∧
      (db_update_score db k sc).1.student_count = db.student_count) ∧
    ((db_delete_student db k).2 = -1 →
      (db_delete_student db k).1 = db ∧
      (db_delete_student db k).1.live = db.live ∧
      (db_delete_student db k).1.student_count = db.student_count) := by
  refine ⟨?_, ?_, ?_⟩
  · have h : (db_get_student db k out).1 = db := by
      cases out with
      | none => rfl
      | some old =>
        unfold db_get_student
        rcases scan_loop_cases db.students k
            (fun i => (db, (0 : Int), some (slot db.students i))) (db, -1, some old)
            db.student_count.toNat 0 with ⟨h1, _⟩ | ⟨j, _, _, _, _, h5⟩
        · simp only [h1]
        · simp only [h5]
    rw [h]
    exact ⟨rfl, rfl, rfl⟩
  · intro hret
    have h : (db_update_score db k sc).1 = db := by
      unfold db_update_score at hret ⊢
      rcases scan_loop_cases db.students k
          (fun i =>
            (({ db with students :=
                  db.students.set i ((slot db.students i).withScore sc) } : Db), (0 : Int)))
          (db, -1) db.student_count.toNat 0 with ⟨h1, _⟩ | ⟨j, _, _, _, _, h5⟩
      · simp only [h1]
      · rw [h5] at hret; simp at hret
    rw [h]
    exact ⟨rfl, rfl, rfl⟩
  · intro hret
    have h : (db_delete_student db k).1 = db := by
      unfold db_delete_student at hret ⊢
      rcases scan_loop_cases db.students k
          (fun i =>
            (({ students :=
                  memmove db.students i (i + 1) (db.student_count - (i : Int) - 1).toNat,
                student_count := db.student_count - 1 } : Db), (0 : Int)))
          (db, -1) db.student_count.toNat 0 with ⟨h1, _⟩ | ⟨j, _, _, _, _, h5⟩
      · simp only [h1]
      · rw [h5] at hret; simp at hret
    rw [h]
    exact ⟨rfl, rfl, rfl⟩

set_option maxRecDepth 100000 in
theorem failed_calls_leave_store_witness :
    (db_update_score twoDb 7 f87).2 = -1 ∧ (db_delete_student twoDb 7).2 = -1 ∧
    ((db_get_student twoDb 2 (some alice)).1 = twoDb ∧
      (db_get_student twoDb 2 (some alice)).1.live = twoDb.live ∧
      (db_get_student twoDb 2 (some alice)).1.student_count = twoDb.student_count) ∧
    ((db_update_score twoDb 7 f87).1 = twoDb ∧
      (db_update_score twoDb 7 f87).1.live = twoDb.live ∧
      (db_update_score twoDb 7 f87).1.student_count = twoDb.student_count) ∧
    ((db_delete_student twoDb 7).1 = twoDb ∧
      (db_delete_student twoDb 7).1.live = twoDb.live ∧
      (db_delete_student twoDb 7).1.student_count = twoDb.student_count) :=
  ⟨by decide, by decide, (failed_calls_leave_store twoDb 2 (some alice) f87).1,
    (failed_calls_leave_store twoDb 7 none f87).2.1 (by decide),
    (failed_calls_leave_store twoDb 7 none f87).2.2 (by decide)⟩

/-! ## C18: the shift stays inside the live slots -/

theorem slot_memmove (a : List Student) (dst src n j : Nat) (hj : j < a.length) :
    slot (memmove a dst src n) j =
      if dst ≤ j ∧ j < dst + n then slot a (src + (j - dst)) else slot a j := by
  unfold slot
  rw [List.getD_eq_getElem?_getD, getElem?_memmove a dst src n j hj]
  rfl

theorem slot_memmove_outside (a : List Student) (dst src n j : Nat)
    (hj : ¬ (dst ≤ j ∧ j < dst + n)) : slot (memmove a dst src n) j = slot a j := by
  by_cases hl : j < a.length
  · rw [slot_memmove a dst src n j hl, if_neg hj]
  · have h1 : (memmove a dst src n)[j]? = none :=
      List.getElem?_eq_none (by rw [memmove_length]; omega)
    have h2 : a[j]? = none := List.getElem?_eq_none (by omega)
    simp [slot, List.getD_eq_getElem?_getD, h1, h2]

theorem memmove_zero (a : List Student) (dst src : Nat) : memmove a dst src 0 = a := by
  apply List.ext_getElem?
  intro j
  by_cases hl : j < a.length
  · rw [getElem?_memmove a dst src 0 j hl, if_neg (by omega), slot_eq_getElem a j hl,
      List.getElem?_eq_getElem hl]
  · rw [List.getElem?_eq_none (by rw [memmove_length]; omega),
      List.getElem?_eq_none (by omega)]

/-- C18. On a store with `0 <= student_count <= 100` whose first match for `k`
is at index `i`, `db_delete_student(k)` calls `memmove` with destination `i`,
source `i + 1` and `student_count - i - 1` slots. The slots read are exactly
`i+1 .. student_count-1`, all live and inside the array; the slots written
are exactly `i .. student_count-2`; every slot outside the written ones keeps
its content and slot `j` of the written ones receives old slot `j + 1`. When
`i = student_count - 1` zero slots are moved: nothing is read or written and
the array is unchanged. -/
theorem db_delete_student_shift_bounds (db : Db) (hwf : db.WF) (k : Int) (i : Nat)
    (hi : db.FirstMatch k i) :
    db_delete_student_shift db k
      = some (i, i + 1, (db.student_count - (i : Int) - 1).toNat) ∧
    (∀ j, j ∈ memmove_reads (i + 1) (db.student_count - (i : Int) - 1).toNat ↔
        (i + 1 ≤ j ∧ (j : Int) ≤ db.student_count - 1)) ∧
    (∀ j, j ∈ memmove_reads (i + 1) (db.student_count - (i : Int) - 1).toNat →
        j < db.live.length ∧ j < MAX_STUDENTS) ∧
    (∀ j, j ∈ memmove_writes i (db.student_count - (i : Int) - 1).toNat ↔
        (i ≤ j ∧ (j : Int) ≤ db.student_count - 2)) ∧
    (∀ j, j ∉ memmove_writes i (db.student_count - (i : Int) - 1).toNat →
        slot (db_delete_student db k).1.students j = slot db.students j) ∧
    (∀ j, j ∈ memmove_writes i (db.student_count - (i : Int) - 1).toNat →
        slot (db_delete_student db k).1.students j = slot db.students (j + 1)) ∧
    ((i : Int) = db.student_count - 1 →
        (db.student_count - (i : Int) - 1).toNat = 0 ∧
        memmove_reads (i + 1) (db.student_count - (i : Int) - 1).toNat = [] ∧
        memmove_writes i (db.student_count - (i : Int) - 1).toNat = [] ∧
        (db_delete_student db k).1.students = db.students) := by
  have hlen := db.live_length hwf
  have hi1 : i < db.live.length := hi.1
  obtain ⟨h1, h2, h3⟩ := hwf
  have hM : MAX_STUDENTS = 100 := rfl
  have hshift : db_delete_student_shift db k
      = some (i, i + 1, (db.student_count - (i : Int) - 1).toNat) := by
    unfold db_delete_student_shift
    rcases scan_live db ⟨h1, h2, h3⟩ k
        (fun i => some (i, i + 1, (db.student_count - (i : Int) - 1).toNat))
        none with ⟨hn, _⟩ | ⟨j, hj, hr⟩
    · exact absurd hi.hasKey hn
    · rw [hr, hj.unique hi]
  have hdel : (db_delete_student db k).1.students
      = memmove db.students i (i + 1) (db.student_count - (i : Int) - 1).toNat := by
    unfold db_delete_student
    rcases scan_live db ⟨h1, h2, h3⟩ k
        (fun i =>
          (({ students :=
                memmove db.students i (i + 1) (db.student_count - (i : Int) - 1).toNat,
              student_count := db.student_count - 1 } : Db), (0 : Int)))
        (db, -1) with ⟨hn, _⟩ | ⟨j, hj, hr⟩
    · exact absurd hi.hasKey hn
    · rw [hr, hj.unique hi]
  have hr : ∀ j, j ∈ memmove_reads (i + 1) (db.student_count - (i : Int) - 1).toNat ↔
      (i + 1 ≤ j ∧ (j : Int) ≤ db.student_count - 1) := by
    intro j
    unfold memmove_reads
    rw [List.mem_range'_1]
    omega
  have hw : ∀ j, j ∈ memmove_writes i (db.student_count - (i : Int) - 1).toNat ↔
      (i ≤ j ∧ (j : Int) ≤ db.student_count - 2) := by
    intro j
    unfold memmove_writes
    rw [List.mem_range'_1]
    omega
  refine ⟨hshift, hr, ?_, hw, ?_, ?_, ?_⟩
  · intro j hj
    have := (hr j).mp hj
    rw [hM]
    omega
  · intro j hj
    rw [hdel]
    apply slot_memmove_outside
    intro hc
    apply hj
    rw [hw]
    omega
  · intro j hj
    have hb := (hw j).mp hj
    rw [hdel, slot_memmove _ _ _ _ _ (by rw [h1, hM]; omega), if_pos (by omega)]
    congr 1
    omega
  · intro hlast
    have e : (db.student_count - (i : Int) - 1).toNat = 0 := by omega
    refine ⟨e, ?_, ?_, ?_⟩
    · rw [e]; rfl
    · rw [e]; rfl
    · rw [hdel, e, memmove_zero]

set_option maxRecDepth 1000000 in
theorem db_delete_student_shift_bounds_witness :
    (twoDb.FirstMatch 1 0 ∧
      db_delete_student_shift twoDb 1
        = some (0, 0 + 1, (twoDb.student_count - ((0 : Nat) : Int) - 1).toNat)) ∧
    (lastDb.FirstMatch 2 99 ∧ lastDb.student_count = 100 ∧
      (((99 : Nat) : Int) = lastDb.student_count - 1 →
        (lastDb.student_count - ((99 : Nat) : Int) - 1).toNat = 0 ∧
        memmove_reads (99 + 1) (lastDb.student_count - ((99 : Nat) : Int) - 1).toNat = [] ∧
        memmove_writes 99 (lastDb.student_count - ((99 : Nat) : Int) - 1).toNat = [] ∧
        (db_delete_student lastDb 2).1.students = lastDb.students)) :=
  ⟨⟨by decide, (db_delete_student_shift_bounds twoDb (by decide) 1 0 (by decide)).1⟩,
    by decide, by decide,
    (db_delete_student_shift_bounds lastDb (by decide) 2 99 (by decide)).2.2.2.2.2.2⟩

/-! ## C13: the average -/

theorem find?_of_first (l : List Student) (k : Int) :
    ∀ i, i < l.length → (slot l i).id = k → (∀ j, j < i → (slot l j).id ≠ k) →
      l.find? (fun s => decide (s.id = k)) = some (slot l i) := by
  induction l with
  | nil => intro i hi; simp at hi
  | cons x xs ih =>
    intro i hi hk hlt
    cases i with
    | zero =>
      have hx : x.id = k := by simpa [slot] using hk
      simp [List.find?_cons, hx, slot]
    | succ i =>
      have hx : x.id ≠ k := by simpa [slot] using hlt 0 (by omega)
      have hs : ∀ j, slot (x :: xs) (j + 1) = slot xs j := fun j => by simp [slot]
      rw [List.find?_cons, hs]
      simp only [hx, decide_False]
      exact ih i (by simpa using hi) (by rw [← hs]; exact hk)
        (fun j hj => by rw [← hs]; exact hlt (j + 1) (by omega))

/-- The lookup, read through `find?` on the live sequence. -/
theorem db_get_student_find (db : Db) (hwf : db.WF) (k : Int) (old : Student) :
    (db.live.find? (fun s => decide (s.id = k)) = none ∧
        db_get_student db k (some old) = (db, -1, some old)) ∨
    (∃ r, db.live.find? (fun s => decide (s.id = k)) = some r ∧
        db_get_student db k (some old) = (db, 0, some r)) := by
  rcases db_get_student_cases db hwf k old with ⟨hn, hr⟩ | ⟨i, hi, hr⟩
  · left
    refine ⟨?_, hr⟩
    rw [List.find?_eq_none]
    intro s hs hsk
    exact hn ⟨s, hs, by simpa using hsk⟩
  · right
    exact ⟨slot db.live i, find?_of_first db.live k i hi.1 hi.2.1 hi.2.2, hr⟩

theorem average_loop_eq (db : Db) (hwf : db.WF) (n : Nat) :
    ∀ (total : Float32) (i : Nat), average_loop db total n i =
      (db, floatSum total ((List.range n).filterMap fun (t : Nat) =>
        (db.live.find? (fun s => decide (s.id = ((i + t : Nat) : Int) + 1))).map
          (fun r => r.score))) := by
  induction n with
  | zero => intro total i; simp [average_loop, floatSum]
  | succ n ih =>
    intro total i
    have hcomp : ((fun (t : Nat) =>
          (db.live.find? (fun s => decide (s.id = ((i + t : Nat) : Int) + 1))).map
            (fun r => r.score)) ∘ Nat.succ)
        = (fun (t : Nat) =>
          (db.live.find? (fun s => decide (s.id = ((i + 1 + t : Nat) : Int) + 1))).map
            (fun r => r.score)) := by
      funext t
      show (db.live.find? (fun s => decide (s.id = ((i + (t + 1) : Nat) : Int) + 1))).map
        (fun r => r.score) = _
      rw [show i + (t + 1) = i + 1 + t by omega]
    rw [List.range_succ_eq_map, List.filterMap_cons, List.filterMap_map, hcomp]
    rcases db_get_student_find db hwf ((i : Int) + 1) default with
      ⟨hf, hr⟩ | ⟨r, hf, hr⟩
    · have step : average_loop db total (n + 1) i = average_loop db total n (i + 1) := by
        rw [average_loop]
        simp [hr]
      have hf0 : db.live.find? (fun s => decide (s.id = ((i + 0 : Nat) : Int) + 1))
          = none := hf
      rw [step, ih, hf0]
      rfl
    · have step : average_loop db total (n + 1) i
          = average_loop db (Float32.add total r.score) n (i + 1) := by
        rw [average_loop]
        simp [hr]
      have hf0 : db.live.find? (fun s => decide (s.id = ((i + 0 : Nat) : Int) + 1))
          = some r := hf
      rw [step, ih, hf0]
      rfl

theorem average_loop_db (db : Db) (hwf : db.WF) (total : Float32) (n i : Nat) :
    (average_loop db total n i).1 = db := by
  rw [average_loop_eq db hwf]

/-- When no addition rounds, the float sum denotes the exact sum. -/
theorem floatSum_units (xs : List Float32) :
    ∀ acc : Float32, SumExact acc xs →
      (floatSum acc xs).units = acc.units + (xs.map Float32.units).sum := by
  induction xs with
  | nil => intro acc _; simp [floatSum]
  | cons x xs ih =>
    intro acc h
    obtain ⟨⟨_, hu⟩, hrest⟩ := h
    have := ih (acc.add x) hrest
    simp only [floatSum, List.foldl_cons, List.map_cons, List.sum_cons] at this ⊢
    rw [this, hu]
    omega

theorem units_filterMap_find (db : Db) (l : List Nat) :
    ((l.filterMap fun (t : Nat) =>
        (db.live.find? (fun s => decide (s.id = (t : Int) + 1))).map
          (fun r => r.score)).map Float32.units).sum
      = (l.map (fun (t : Nat) => firstUnits db ((t : Int) + 1))).sum := by
  induction l with
  | nil => rfl
  | cons t l ih =>
    rw [List.filterMap_cons, List.map_cons, List.sum_cons, ← ih]
    cases hf : db.live.find? (fun s => decide (s.id = (t : Int) + 1)) with
    | none => simp [firstUnits, hf]
    | some r => simp [firstUnits, hf]

theorem foundScores_units (db : Db) (T : Nat) :
    ((foundScores db T).map Float32.units).sum = unitsSum db T :=
  units_filterMap_find db (List.range T)

theorem foundScores_of_count_zero (db : Db) (h : db.student_count = 0) (T : Nat) :
    foundScores db T = [] := by
  have hl : db.live = [] := by simp [Db.live, h]
  simp [foundScores, hl]

/-! ### The arithmetic on sample operands -/

set_option maxRecDepth 1000000 in
set_option exponentiation.threshold 2048 in
/-- The model of the binary32 operations on operands that exercise each
rounding case: `0.1f + 0.2f`, `1.0f / 3` (rounded up), overflow to infinity,
subnormal quotients (`1/3`, `2/3` and `3/3` of a unit), ties to even in both
directions, the carry into the next binade, the signs of zero, division by
zero and by infinity, `inf - inf`, and the conversion of integers that need
more than 24 bits. -/
theorem float_arith_samples :
    Float32.add ⟨false, 123, 5033165⟩ ⟨false, 124, 5033165⟩ = ⟨false, 125, 1677722⟩ ∧
    Float32.div ⟨false, 127, 0⟩ ⟨false, 128, 4194304⟩ = ⟨false, 125, 2796203⟩ ∧
    Float32.add ⟨false, 254, 8388607⟩ ⟨false, 254, 8388607⟩ = ⟨false, 255, 0⟩ ∧
    Float32.div ⟨false, 0, 1⟩ ⟨false, 128, 4194304⟩ = ⟨false, 0, 0⟩ ∧
    Float32.div ⟨false, 0, 2⟩ ⟨false, 128, 4194304⟩ = ⟨false, 0, 1⟩ ∧
    Float32.div ⟨false, 0, 3⟩ ⟨false, 128, 4194304⟩ = ⟨false, 0, 1⟩ ∧
    Float32.add ⟨false, 150, 8388607⟩ ⟨false, 127, 0⟩ = ⟨false, 151, 0⟩ ∧
    Float32.add ⟨false, 151, 0⟩ ⟨false, 127, 0⟩ = ⟨false, 151, 0⟩ ∧
    Float32.add ⟨false, 127, 0⟩ ⟨false, 103, 0⟩ = ⟨false, 127, 0⟩ ∧
    Float32.add ⟨false, 127, 1⟩ ⟨false, 103, 0⟩ = ⟨false, 127, 2⟩ ∧
    Float32.add ⟨false, 127, 0⟩ ⟨true, 127, 0⟩ = ⟨false, 0, 0⟩ ∧
    Float32.add ⟨true, 0, 0⟩ ⟨true, 0, 0⟩ = ⟨true, 0, 0⟩ ∧
    Float32.add ⟨false, 0, 0⟩ ⟨true, 0, 0⟩ = ⟨false, 0, 0⟩ ∧
    Float32.div ⟨false, 127, 0⟩ ⟨false, 0, 0⟩ = ⟨false, 255, 0⟩ ∧
    Float32.div ⟨true, 127, 0⟩ ⟨false, 255, 0⟩ = ⟨true, 0, 0⟩ ∧
    Float32.add ⟨false, 0, 8388607⟩ ⟨false, 0, 1⟩ = ⟨false, 1, 0⟩ ∧
    Float32.div ⟨false, 1, 0⟩ ⟨false, 128, 4194304⟩ = ⟨false, 0, 2796203⟩ ∧
    (Float32.add ⟨false, 255, 0⟩ ⟨true, 255, 0⟩).isNaN = true ∧
    (Float32.div ⟨false, 0, 0⟩ ⟨false, 0, 0⟩).isNaN = true ∧
    Float32.ofInt 16777217 = ⟨false, 151, 0⟩ ∧
    Float32.ofInt 16777219 = ⟨false, 151, 2⟩ ∧
    Float32.ofInt (-16777217) = ⟨true, 151, 0⟩ ∧
    Float32.ofInt 2147483583 = ⟨false, 157, 8388607⟩ ∧
    Float32.ofInt 2147483584 = ⟨false, 158, 0⟩ ∧
    Float32.ofInt 2147483647 = ⟨false, 158, 0⟩ := by
  decide

/-! ### Facts on rounding used for the empty store -/

theorem findShift_succ (p q fuel k : Nat) :
    Float32.findShift p q (fuel + 1) k =
      if p < q * 2 ^ (k + 24) then k else Float32.findShift p q fuel (k + 1) := rfl

theorem findShift_lower (p q : Nat) :
    ∀ fuel k, (k = 0 ∨ q * 2 ^ (k + 23) ≤ p) →
      (Float32.findShift p q fuel k = 0 ∨
        q * 2 ^ (Float32.findShift p q fuel k + 23) ≤ p) := by
  intro fuel
  induction fuel with
  | zero => intro k hk; exact hk
  | succ fuel ih =>
    intro k hk
    rw [findShift_succ]
    by_cases h : p < q * 2 ^ (k + 24)
    · rw [if_pos h]; exact hk
    · rw [if_neg h]
      exact ih (k + 1) (Or.inr (by
        rw [show k + 1 + 23 = k + 24 by omega]; exact Nat.le_of_not_lt h))

theorem isNaN_of_exponent (x : Float32) (h : x.exponent.val ≠ 255) : x.isNaN = false := by
  unfold Float32.isNaN
  rw [decide_eq_false h]
  rfl

theorem isNaN_of_mantissa (x : Float32) (h : x.mantissa.val = 0) : x.isNaN = false := by
  unfold Float32.isNaN
  have : decide (x.mantissa.val ≠ 0) = false := decide_eq_false (by rw [h]; exact fun h => h rfl)
  rw [this, Bool.and_false]

theorem units_of_zero_fields (s : Bool) : (Float32.mk s 0 0).units = 0 := by
  cases s <;> rfl

theorem encode_not_nan (neg : Bool) (m k : Nat) :
    (Float32.encode neg m k).isNaN = false := by
  unfold Float32.encode
  split
  · exact isNaN_of_exponent _ (show (0 : Fin 256).val ≠ 255 by decide)
  · split
    · split
      · exact isNaN_of_mantissa _ rfl
      · exact isNaN_of_mantissa _ rfl
    · split
      · exact isNaN_of_mantissa _ rfl
      · rename_i h1 h2 h3
        apply isNaN_of_exponent
        show (k + 1) % 256 ≠ 255
        omega

theorem encode_exponent_ne_zero (neg : Bool) (m k : Nat) (hm : 8388608 ≤ m) :
    (Float32.encode neg m k).exponent.val ≠ 0 := by
  unfold Float32.encode
  rw [if_neg (by omega)]
  split
  · split
    · show (255 : Fin 256).val ≠ 0
      decide
    · rename_i h1 h2
      show (k + 2) % 256 ≠ 0
      omega
  · split
    · show (255 : Fin 256).val ≠ 0
      decide
    · rename_i h1 h2
      show (k + 1) % 256 ≠ 0
      omega

theorem magnitude_ne_zero_of_exponent (x : Float32) (h : x.exponent.val ≠ 0) :
    x.magnitude ≠ 0 := by
  unfold Float32.magnitude
  rw [if_neg h]
  exact Nat.mul_ne_zero (by omega) (Nat.pos_iff_ne_zero.mp (Nat.two_pow_pos _))

theorem roundUnits_not_nan (neg : Bool) (p q : Nat) :
    (Float32.roundUnits neg p q).isNaN = false := by
  unfold Float32.roundUnits
  exact encode_not_nan _ _ _

theorem roundUnits_magnitude_ne_zero (neg : Bool) (p q : Nat) (hq : 0 < q)
    (hp : q * 8388608 ≤ p) : (Float32.roundUnits neg p q).magnitude ≠ 0 := by
  apply magnitude_ne_zero_of_exponent
  unfold Float32.roundUnits
  apply encode_exponent_ne_zero
  have hm : 8388608 ≤ p / (q * 2 ^ Float32.findShift p q 512 0) := by
    rw [Nat.le_div_iff_mul_le (Nat.mul_pos hq (Nat.two_pow_pos _))]
    rcases findShift_lower p q 512 0 (Or.inl rfl) with h0 | h
    · rw [h0]; simpa [Nat.mul_comm] using hp
    · have e : 8388608 * (q * 2 ^ Float32.findShift p q 512 0)
          = q * 2 ^ (Float32.findShift p q 512 0 + 23) := by
        rw [Nat.pow_add]; ring
      rw [e]; exact h
  split <;> omega

theorem ofInt_not_nan (n : Int) : (Float32.ofInt n).isNaN = false := by
  unfold Float32.ofInt
  split
  · decide
  · exact roundUnits_not_nan _ _ _

theorem ofInt_magnitude_ne_zero (n : Int) (hn : n ≠ 0) :
    (Float32.ofInt n).magnitude ≠ 0 := by
  unfold Float32.ofInt
  rw [if_neg hn]
  apply roundUnits_magnitude_ne_zero _ _ _ (by decide)
  have h1 : 1 ≤ n.natAbs := by omega
  have h2 : (8388608 : Nat) ≤ 2 ^ 149 := by norm_num
  calc 1 * 8388608 ≤ 1 * 2 ^ 149 := by omega
    _ ≤ n.natAbs * 2 ^ 149 := Nat.mul_le_mul_right _ h1

/-- Zero divided by a non-zero number, finite or infinite, is a zero. -/
theorem zero_div (b : Float32) (hb : b.isNaN = false) (hm : b.magnitude ≠ 0) :
    (Float32.zero.div b).isNaN = false ∧ (Float32.zero.div b).units = 0 := by
  have hz1 : Float32.zero.isNaN = false := by decide
  have hz2 : Float32.zero.isInf = false := by decide
  have hz3 : Float32.zero.magnitude = 0 := by decide
  have hr : Float32.zero.div b = ⟨Float32.zero.sign != b.sign, 0, 0⟩ := by
    unfold Float32.div
    rw [hz1, hb, hz2]
    simp only [Bool.or_self, Bool.false_eq_true, if_false]
    by_cases hi : b.isInf = true
    · rw [if_pos hi]
    · rw [if_neg hi, if_neg hm, if_pos hz3]
  rw [hr]
  exact ⟨isNaN_of_mantissa _ rfl, units_of_zero_fields _⟩

/-- The value `get_average_score` computes on a well-formed store. -/
theorem get_average_score_eq (w : World) (hwf : w.db.WF) :
    get_average_score w =
      (w, if get_total_students w = 0 then Float32.zero
          else (floatSum Float32.zero (foundScores w.db (get_total_students w).toNat)).div
            (Float32.ofInt (get_total_students w))) := by
  obtain ⟨db, g⟩ := w
  simp only at hwf ⊢
  have hloop := average_loop_eq db hwf (get_total_students ⟨db, g⟩).toNat Float32.zero 0
  simp only [Nat.zero_add] at hloop
  unfold get_average_score
  by_cases h : get_total_students ⟨db, g⟩ = 0
  · simp only [h, if_true]
  · simp only [h, if_false, hloop, foundScores]

/-- On a store whose live records all have id 1, only `k = 1` finds a score. -/
theorem foundScores_all_one (db : Db) (x : Student)
    (h1 : db.live.find? (fun s => decide (s.id = 1)) = some x)
    (hall : ∀ s ∈ db.live, s.id = 1) (N : Nat) :
    foundScores db (N + 1) = [x.score] := by
  unfold foundScores
  rw [List.range_succ_eq_map, List.filterMap_cons, List.filterMap_map]
  have h0 : db.live.find? (fun s => decide (s.id = ((0 : Nat) : Int) + 1)) = some x := h1
  rw [h0]
  simp only [Option.map_some']
  congr 1
  rw [List.filterMap_eq_nil_iff]
  intro t _
  have hn : db.live.find? (fun s => decide (s.id = ((t + 1 : Nat) : Int) + 1)) = none := by
    rw [List.find?_eq_none]
    intro s hs
    have := hall s hs
    simp only [decide_eq_true_eq]
    omega
  simp only [Function.comp, Nat.succ_eq_add_one, hn, Option.map_none']

set_option maxRecDepth 1000000 in
/-- C13 fails as stated. In the state `add_student("N", NaN)` leaves on a
fresh process (the NaN passes `validate_score`), `T = 1` and
`get_average_score()` returns a NaN, which is no number at all, so not the
sum of the scores divided by `T`. With `+inf` stored by
`db_update_score(1, +inf)` it returns `+inf`. And with one record of score
`100.0` and `T = 3` it returns `33.3333321`, the quotient rounded down, and
with score `2.0` and `T = 3` it returns `0.666666687`, rounded up. In the
state the C20 counterexample ends in (full store of records with id 1 and
score 95.5, counter `INT32_MIN`) the counter minus 1 is no `int32_t`: the
total read is `INT32_MAX` and the result is `95.5 / 2^31`, not 0 as an empty
sum would give. -/
theorem get_average_score_counterexample :
    (add_student freshWorld (some [78]) Float32.qnan).1 = nanWorld ∧
    nanWorld.db.WF ∧ get_total_students nanWorld = 1 ∧
    (get_average_score nanWorld).2.isNaN = true ∧
    (get_average_score ⟨(db_update_score oneDb 1 (Float32.inf false)).1, 2⟩).2
      = Float32.inf false ∧
    (get_average_score thirdWorld).2 = f33 ∧
    (get_average_score twoThirdsWorld).2 = ⟨false, 126, 2796203⟩ ∧
    (add_student maxWorld (some [66, 111, 98]) f87).1 = minWorld ∧
    get_total_students minWorld = 2147483647 ∧
    (get_average_score minWorld).2 = ⟨false, 102, 4128768⟩ ∧
    (get_average_score minWorld).2.units ≠ 0 := by
  have hmin : (get_average_score minWorld).2 = ⟨false, 102, 4128768⟩ := by
    rw [get_average_score_eq minWorld (by decide)]
    have hT : get_total_students minWorld = 2147483647 := by decide
    have hf : foundScores minWorld.db (2147483646 + 1) = [alice.score] :=
      foundScores_all_one minWorld.db alice (by decide) (by decide) 2147483646
    simp only [hT]
    rw [if_neg (by decide), show (2147483647 : Int).toNat = 2147483646 + 1 by decide, hf]
    decide
  refine ⟨by decide, by decide, by decide, by decide, by decide, by decide, by decide,
    by decide, by decide, hmin, ?_⟩
  rw [hmin]
  decide

/-- C13 (amended). With `T = get_total_students()`, which is the id counter
minus 1 for every counter above `INT32_MIN`: `get_average_score()` changes no
state; it returns `0.0` when `T = 0`; otherwise it returns the binary32 sum,
accumulated from `0.0f` for `k = 1 .. T` in order, of the score of the first
live record with id `k` (an id with no live record adds nothing), divided by
`T` in binary32. When none of these additions nor the division rounds, the
result is finite and is exactly the sum over `k = 1 .. T` of the score of the
first live record with id `k` (0 when there is none) divided by `T`. On an
empty store it returns a zero, whatever the counter is. -/
theorem get_average_score_sum (w : World) (hwf : w.db.WF) :
    (get_average_score w).1 = w ∧
    (-2147483648 < w.g_next_id → w.g_next_id ≤ 2147483647 →
      get_total_students w = w.g_next_id - 1) ∧
    (get_total_students w = 0 → (get_average_score w).2 = Float32.zero) ∧
    (get_total_students w ≠ 0 →
      (get_average_score w).2 =
        (floatSum Float32.zero (foundScores w.db (get_total_students w).toNat)).div
          (Float32.ofInt (get_total_students w))) ∧
    (get_total_students w ≠ 0 →
      SumExact Float32.zero (foundScores w.db (get_total_students w).toNat) →
      DivExact (floatSum Float32.zero (foundScores w.db (get_total_students w).toNat))
        (get_total_students w) →
      (get_average_score w).2.isFinite = true ∧
      (get_average_score w).2.units * get_total_students w
        = unitsSum w.db (get_total_students w).toNat) ∧
    (w.db.student_count = 0 →
      (get_average_score w).2.isNaN = false ∧ (get_average_score w).2.units = 0) := by
  obtain ⟨db, g⟩ := w
  simp only at hwf ⊢
  have heq := get_average_score_eq ⟨db, g⟩ hwf
  have hnz : get_total_students ⟨db, g⟩ ≠ 0 → get_average_score ⟨db, g⟩ =
      (⟨db, g⟩, (floatSum Float32.zero
        (foundScores db (get_total_students ⟨db, g⟩).toNat)).div
          (Float32.ofInt (get_total_students ⟨db, g⟩))) := by
    intro h
    rw [heq, if_neg h]
  have hz : get_total_students ⟨db, g⟩ = 0 →
      get_average_score ⟨db, g⟩ = (⟨db, g⟩, Float32.zero) := by
    intro h
    rw [heq, if_pos h]
  refine ⟨?_, ?_, fun h => by rw [hz h], fun h => by rw [hnz h], ?_, ?_⟩
  · by_cases h : get_total_students ⟨db, g⟩ = 0
    · rw [hz h]
    · rw [hnz h]
  · intro hlo hhi
    unfold get_total_students wrap32
    simp only
    omega
  · intro h hsum hdiv
    rw [hnz h]
    refine ⟨hdiv.1, ?_⟩
    show ((floatSum Float32.zero (foundScores db (get_total_students ⟨db, g⟩).toNat)).div
      (Float32.ofInt (get_total_students ⟨db, g⟩))).units * get_total_students ⟨db, g⟩ = _
    rw [hdiv.2, floatSum_units _ _ hsum, foundScores_units, units_zero, zero_add]
  · intro hc
    by_cases h : get_total_students ⟨db, g⟩ = 0
    · rw [hz h]
      exact ⟨isNaN_zero, units_zero⟩
    · rw [hnz h, foundScores_of_count_zero db hc]
      exact zero_div _ (ofInt_not_nan _) (ofInt_magnitude_ne_zero _ h)

set_option maxRecDepth 1000000 in
theorem get_average_score_sum_witness :
    get_total_students ⟨twoDb, 3⟩ = 2 ∧
    foundScores twoDb 2 = [f95_5, f87] ∧
    SumExact Float32.zero (foundScores twoDb 2) ∧
    DivExact (floatSum Float32.zero (foundScores twoDb 2)) 2 ∧
    (get_average_score ⟨twoDb, 3⟩).2 = f91_25 ∧
    ((get_average_score ⟨twoDb, 3⟩).1 = ⟨twoDb, 3⟩ ∧
    (-2147483648 < (⟨twoDb, 3⟩ : World).g_next_id →
      (⟨twoDb, 3⟩ : World).g_next_id ≤ 2147483647 →
      get_total_students ⟨twoDb, 3⟩ = (⟨twoDb, 3⟩ : World).g_next_id - 1) ∧
    (get_total_students ⟨twoDb, 3⟩ = 0 →
      (get_average_score ⟨twoDb, 3⟩).2 = Float32.zero) ∧
    (get_total_students ⟨twoDb, 3⟩ ≠ 0 →
      (get_average_score ⟨twoDb, 3⟩).2 =
        (floatSum Float32.zero
          (foundScores (⟨twoDb, 3⟩ : World).db (get_total_students ⟨twoDb, 3⟩).toNat)).div
          (Float32.ofInt (get_total_students ⟨twoDb, 3⟩))) ∧
    (get_total_students ⟨twoDb, 3⟩ ≠ 0 →
      SumExact Float32.zero
        (foundScores (⟨twoDb, 3⟩ : World).db (get_total_students ⟨twoDb, 3⟩).toNat) →
      DivExact (floatSum Float32.zero
        (foundScores (⟨twoDb, 3⟩ : World).db (get_total_students ⟨twoDb, 3⟩).toNat))
        (get_total_students ⟨twoDb, 3⟩) →
      (get_average_score ⟨twoDb, 3⟩).2.isFinite = true ∧
      (get_average_score ⟨twoDb, 3⟩).2.units * get_total_students ⟨twoDb, 3⟩
        = unitsSum (⟨twoDb, 3⟩ : World).db (get_total_students ⟨twoDb, 3⟩).toNat) ∧
    ((⟨twoDb, 3⟩ : World).db.student_count = 0 →
      (get_average_score ⟨twoDb, 3⟩).2.isNaN = false ∧
      (get_average_score ⟨twoDb, 3⟩).2.units = 0)) :=
  ⟨by decide, by decide, by decide, by decide, by decide,
    get_average_score_sum ⟨twoDb, 3⟩ (by decide)⟩

/-! ## Effect of each call on the counter and on the live ids -/

/-- Outcome of `add_student`: rejected by a validator with nothing changed, or
the counter bumped and the built record passed to `db_add_student`. -/
theorem add_student_cases (w : World) (nm : Option (List Nat)) (sc : Float32) :
    add_student w nm sc = (w, -1) ∨
    (add_student w nm sc =
      (⟨(db_add_student w.db (some (newStudent w nm sc))).1, wrap32 (w.g_next_id + 1)⟩,
        if (db_add_student w.db (some (newStudent w nm sc))).2 ≠ 0 then -1
        else w.g_next_id)) := by
  unfold add_student
  by_cases h1 : validate_student_name nm ≠ 0
  · left; rw [if_pos h1]
  · by_cases h2 : validate_score sc ≠ 0
    · left; rw [if_neg h1, if_pos h2]
    · right
      rw [if_neg h1, if_neg h2]
      simp only [newStudent]
      split <;> rfl

theorem add_student_ret (w : World) (nm : Option (List Nat)) (sc : Float32) :
    (add_student w nm sc).2 = -1 ∨ (add_student w nm sc).2 = w.g_next_id := by
  rcases add_student_cases w nm sc with h | h
  · left; rw [h]
  · rw [h]
    by_cases hr : (db_add_student w.db (some (newStudent w nm sc))).2 ≠ 0
    · left; simp [hr]
    · right; simp only [if_neg hr]

theorem get_average_score_counter (w : World) :
    (get_average_score w).1.g_next_id = w.g_next_id := by
  unfold get_average_score
  simp only
  split <;> rfl

theorem step_counter (w : World) (c : Call) :
    (c.step w).g_next_id = w.g_next_id ∨
    (c.step w).g_next_id = wrap32 (w.g_next_id + 1) := by
  cases c with
  | add nm sc =>
    rcases add_student_cases w nm sc with h | h
    · left; show (add_student w nm sc).1.g_next_id = _; rw [h]
    · right; show (add_student w nm sc).1.g_next_id = _; rw [h]
  | update id sc =>
    left
    show (update_student_score w id sc).1.g_next_id = _
    unfold update_student_score
    simp only
    split
    · rfl
    · split
      · rfl
      · split <;> rfl
  | average => left; exact get_average_score_counter w
  | total => left; rfl
  | dbInit => left; rfl
  | dbAdd p => left; rfl
  | dbGet id out => left; rfl
  | dbUpdate id sc => left; rfl
  | dbDelete id => left; rfl

/-- While no increment overflows, the counter never decreases. -/
theorem runWorld_counter_mono (cs : List Call) :
    ∀ w : World, 1 ≤ w.g_next_id → CounterBelowMax w cs →
      w.g_next_id ≤ (runWorld w cs).g_next_id := by
  induction cs with
  | nil => intro w _ _; exact le_refl _
  | cons c cs ih =>
    intro w h1 hb
    obtain ⟨hlt, hrest⟩ := hb
    have hw : wrap32 (w.g_next_id + 1) = w.g_next_id + 1 := by
      unfold wrap32; omega
    have hstep : w.g_next_id ≤ (c.step w).g_next_id := by
      rcases step_counter w c with h | h
      · rw [h]
      · rw [h, hw]; omega
    have := ih (c.step w) (by omega) hrest
    show w.g_next_id ≤ (runWorld (c.step w) cs).g_next_id
    omega

/-! ## C20: `add_student` on a full store -/

set_option maxRecDepth 1000000 in
/-- C20 fails as stated at the counter value `n = INT32_MAX`: the store is
full, name and score are valid and the call returns -1 with the store
unchanged, but `n + 1 = 2^31` is no `int32_t` value: `g_next_id++` overflows
and leaves the counter at `INT32_MIN`, not at `n + 1`. -/
theorem add_student_full_store_counterexample :
    maxWorld.db.WF ∧ maxWorld.db.student_count = 100 ∧
    validate_student_name (some [66, 111, 98]) = 0 ∧ f87.InScoreDomain ∧
    (add_student maxWorld (some [66, 111, 98]) f87).2 = -1 ∧
    (add_student maxWorld (some [66, 111, 98]) f87).1.db = maxWorld.db ∧
    (add_student maxWorld (some [66, 111, 98]) f87).1.g_next_id = -2147483648 ∧
    (add_student maxWorld (some [66, 111, 98]) f87).1.g_next_id
      ≠ maxWorld.g_next_id + 1 := by
  decide

/-- C20 (amended). With the counter at `n`, `1 <= n < INT32_MAX`, and a store
holding 100 live entries, `add_student` with a valid name and a valid score
returns -1 and leaves the store unchanged, yet the counter becomes `n + 1`:
`get_total_students()` grows by 1, and after any later calls during which the
counter stays below `INT32_MAX` the counter is above `n`, so that no later
`add_student` returns `n`. -/
theorem add_student_full_store_burns_id (w : World) (name : List Nat) (sc : Float32)
    (hfull : w.db.student_count = 100) (hn1 : 1 ≤ w.g_next_id)
    (hn2 : w.g_next_id < 2147483647) (hl1 : 1 ≤ name.length) (hl2 : name.length ≤ 63)
    (hs : sc.InScoreDomain) :
    (add_student w (some name) sc).2 = -1 ∧
    (add_student w (some name) sc).1.db = w.db ∧
    (add_student w (some name) sc).1.g_next_id = w.g_next_id + 1 ∧
    get_total_students (add_student w (some name) sc).1 = get_total_students w + 1 ∧
    (∀ (cs : List Call), CounterBelowMax (add_student w (some name) sc).1 cs →
      w.g_next_id < (runWorld (add_student w (some name) sc).1 cs).g_next_id ∧
      ∀ (nm : Option (List Nat)) (s : Float32),
        (add_student (runWorld (add_student w (some name) sc).1 cs) nm s).2
          ≠ w.g_next_id) := by
  have hw : wrap32 (w.g_next_id + 1) = w.g_next_id + 1 := by
    unfold wrap32; omega
  have hfull2 : db_add_student w.db (some ⟨w.g_next_id, nameBuf name, sc⟩)
      = (w.db, -1) := by
    simp [db_add_student, hfull, MAX_STUDENTS]
  have hr : add_student w (some name) sc = (⟨w.db, w.g_next_id + 1⟩, -1) := by
    simp [add_student, validate_student_name_ok name hl1 hl2,
      validate_score_of_inScoreDomain sc hs, strncpy_name name hl2, hw, hfull2]
  rw [hr]
  refine ⟨rfl, rfl, rfl, ?_, ?_⟩
  · unfold get_total_students wrap32
    simp only
    omega
  · intro cs hb
    have hmono := runWorld_counter_mono cs ⟨w.db, w.g_next_id + 1⟩
      (by show 1 ≤ w.g_next_id + 1; omega) hb
    have hlt : w.g_next_id < (runWorld ⟨w.db, w.g_next_id + 1⟩ cs).g_next_id := by
      have : (⟨w.db, w.g_next_id + 1⟩ : World).g_next_id = w.g_next_id + 1 := rfl
      omega
    refine ⟨hlt, fun nm s => ?_⟩
    rcases add_student_ret (runWorld ⟨w.db, w.g_next_id + 1⟩ cs) nm s with h | h
    · rw [h]; omega
    · rw [h]; omega

set_option maxRecDepth 1000000 in
theorem add_student_full_store_burns_id_witness :
    fullWorld.db.WF ∧
    (add_student fullWorld (some [66, 111, 98]) f87).2 = -1 ∧
    (add_student fullWorld (some [66, 111, 98]) f87).1.db = fullWorld.db ∧
    (add_student fullWorld (some [66, 111, 98]) f87).1.g_next_id
      = fullWorld.g_next_id + 1 ∧
    get_total_students (add_student fullWorld (some [66, 111, 98]) f87).1
      = get_total_students fullWorld + 1 ∧
    (∀ (cs : List Call),
      CounterBelowMax (add_student fullWorld (some [66, 111, 98]) f87).1 cs →
      fullWorld.g_next_id
        < (runWorld (add_student fullWorld (some [66, 111, 98]) f87).1 cs).g_next_id ∧
      ∀ (nm : Option (List Nat)) (s : Float32),
        (add_student (runWorld (add_student fullWorld (some [66, 111, 98]) f87).1 cs)
          nm s).2 ≠ fullWorld.g_next_id) :=
  ⟨by decide, add_student_full_store_burns_id fullWorld [66, 111, 98] f87 (by decide)
    (by decide) (by decide) (by decide) (by decide) (by decide)⟩

/-! ## C17: ids handed out by the manager stay distinct -/

theorem map_id_set_withScore (l : List Student) (i : Nat) (hi : i < l.length)
    (sc : Float32) :
    (l.set i ((slot l i).withScore sc)).map (fun s => s.id) = l.map (fun s => s.id) := by
  apply List.ext_getElem?
  intro j
  simp only [List.getElem?_map, List.getElem?_set]
  by_cases hij : i = j
  · subst hij
    simp [hi, slot_eq_getElem l i hi, Student.withScore, List.getElem?_eq_getElem hi]
  · simp [hij]

theorem ids_db_update_score (db : Db) (hwf : db.WF) (k : Int) (sc : Float32) :
    (db_update_score db k sc).1.ids = db.ids := by
  rcases db_update_score_cases db hwf k sc with ⟨_, hr⟩ | ⟨i, hi, hr⟩
  · rw [hr]
  · rw [hr]
    unfold Db.ids
    rw [live_set]
    exact map_id_set_withScore db.live i hi.1 sc

theorem ids_db_delete_student (db : Db) (hwf : db.WF) (k : Int) :
    (db_delete_student db k).1.ids.Sublist db.ids := by
  rcases db_delete_student_cases db hwf k with ⟨_, hr⟩ | ⟨i, _, _, hl, _, _⟩
  · rw [hr]
  · unfold Db.ids
    rw [hl]
    exact (List.eraseIdx_sublist db.live i).map _

theorem get_average_score_world (w : World) (hwf : w.db.WF) :
    (get_average_score w).1 = w := by
  obtain ⟨db, g⟩ := w
  unfold get_average_score
  simp only
  split
  · rfl
  · rw [average_loop_db db hwf]

theorem inv_of_ids {w v : World} (hw : w.Inv) (hwf : v.db.WF)
    (hg : w.g_next_id ≤ v.g_next_id) (hs : v.db.ids.Sublist w.db.ids) : v.Inv := by
  obtain ⟨_, h1, h2, h3⟩ := hw
  refine ⟨hwf, by omega, h2.sublist hs, fun k hk => ?_⟩
  have := h3 k (hs.subset hk)
  omega

theorem inv_add_student (w : World) (hw : w.Inv) (hlt : w.g_next_id < 2147483647)
    (nm : Option (List Nat)) (sc : Float32) : (add_student w nm sc).1.Inv := by
  have hwrap : wrap32 (w.g_next_id + 1) = w.g_next_id + 1 := by
    have := hw.2.1
    unfold wrap32; omega
  rcases add_student_cases w nm sc with h | h
  · rw [h]; exact hw
  · rw [h, hwrap]
    have hwf2 := db_add_student_wf w.db hw.1 (some (newStudent w nm sc))
    by_cases hc : w.db.student_count < (MAX_STUDENTS : Int)
    · have hl := db_add_student_live w.db hw.1 (newStudent w nm sc) hc
      have hids : (db_add_student w.db (some (newStudent w nm sc))).1.ids
          = w.db.ids ++ [w.g_next_id] := by
        unfold Db.ids
        rw [hl]
        simp [newStudent]
      obtain ⟨_, h1, h2, h3⟩ := hw
      refine ⟨hwf2, by show 1 ≤ w.g_next_id + 1; omega, ?_, ?_⟩
      · show (db_add_student w.db (some (newStudent w nm sc))).1.ids.Nodup
        rw [hids, List.nodup_append]
        refine ⟨h2, List.nodup_singleton _, ?_⟩
        intro k hk hk2
        have := h3 k hk
        have : k = w.g_next_id := by simpa using hk2
        omega
      · intro k hk
        have hk2 : k ∈ w.db.ids ++ [w.g_next_id] := by rw [← hids]; exact hk
        show 0 < k ∧ k < w.g_next_id + 1
        rcases List.mem_append.mp hk2 with hk3 | hk3
        · have := h3 k hk3; omega
        · have : k = w.g_next_id := by simpa using hk3
          omega
    · have hr : db_add_student w.db (some (newStudent w nm sc)) = (w.db, -1) := by
        simp [db_add_student, not_lt.mp hc]
      apply inv_of_ids hw hwf2
      · show w.g_next_id ≤ w.g_next_id + 1
        omega
      · show (db_add_student w.db (some (newStudent w nm sc))).1.ids.Sublist w.db.ids
        rw [hr]

theorem inv_step (w : World) (hw : w.Inv) (hlt : w.g_next_id < 2147483647) (c : Call)
    (hc : c.isDbAdd = false) : (c.step w).Inv := by
  cases c with
  | add nm sc => exact inv_add_student w hw hlt nm sc
  | update id sc =>
    show (update_student_score w id sc).1.Inv
    unfold update_student_score
    simp only
    split
    · exact hw
    · split
      · exact hw
      · have hi := inv_of_ids (v := { w with db := (db_update_score w.db id sc).1 }) hw
          (db_update_score_wf w.db hw.1 id sc) (le_refl _)
          (by rw [ids_db_update_score w.db hw.1 id sc])
        split <;> exact hi
  | average =>
    show (get_average_score w).1.Inv
    rw [get_average_score_world w hw.1]; exact hw
  | total => exact hw
  | dbInit =>
    refine inv_of_ids (v := { w with db := (db_init w.db).1 }) hw (db_init_wf w.db)
      (le_refl _) ?_
    simp [Db.ids, Db.live, db_init]
  | dbAdd p => simp [Call.isDbAdd] at hc
  | dbGet id out =>
    refine inv_of_ids (v := { w with db := (db_get_student w.db id out).1 }) hw ?_
      (le_refl _) ?_
    · rw [db_get_student_db w.db hw.1 id out]; exact hw.1
    · rw [db_get_student_db w.db hw.1 id out]
  | dbUpdate id sc =>
    exact inv_of_ids (v := { w with db := (db_update_score w.db id sc).1 }) hw
      (db_update_score_wf w.db hw.1 id sc) (le_refl _)
      (by rw [ids_db_update_score w.db hw.1 id sc])
  | dbDelete id =>
    exact inv_of_ids (v := { w with db := (db_delete_student w.db id).1 }) hw
      (db_delete_student_wf w.db hw.1 id) (le_refl _)
      (ids_db_delete_student w.db hw.1 id)

theorem inv_runWorld (cs : List Call) :
    ∀ w : World, w.Inv → (∀ c ∈ cs, c.isDbAdd = false) → CounterBelowMax w cs →
      (runWorld w cs).Inv := by
  induction cs with
  | nil => intro w hw _ _; exact hw
  | cons c cs ih =>
    intro w hw hno hb
    exact ih (c.step w) (inv_step w hw hb.1 c (hno c (List.mem_cons_self _ _)))
      (fun d hd => hno d (List.mem_cons_of_mem _ hd)) hb.2

theorem inv_freshWorld : freshWorld.Inv := by
  refine ⟨db_init_wf ⟨[], 0⟩, le_refl _, ?_, ?_⟩
  · simp [freshWorld, emptyDb, Db.ids, Db.live, db_init]
  · simp [freshWorld, emptyDb, Db.ids, Db.live, db_init]

/-- C17. In the state reached from the initial state (counter 1, empty store)
by any finite sequence of calls that contains no direct `db_add_student` and
during which the counter stays below `INT32_MAX`, the ids of the live records
are pairwise distinct, each is positive and each is below the id counter. -/
theorem manager_ids_distinct (cs : List Call) (hno : ∀ c ∈ cs, c.isDbAdd = false)
    (hb : CounterBelowMax freshWorld cs) :
    ((runWorld freshWorld cs).db.live.map (fun s => s.id)).Nodup ∧
    ∀ s ∈ (runWorld freshWorld cs).db.live,
      0 < s.id ∧ s.id < (runWorld freshWorld cs).g_next_id := by
  obtain ⟨_, _, h2, h3⟩ := inv_runWorld cs freshWorld inv_freshWorld hno hb
  exact ⟨h2, fun s hs => h3 s.id (List.mem_map_of_mem _ hs)⟩

set_option maxRecDepth 1000000 in
theorem manager_ids_distinct_witness :
    (runWorld freshWorld sampleCalls).db.ids = [2, 3] ∧
    (runWorld freshWorld sampleCalls).g_next_id = 4 ∧
    ((runWorld freshWorld sampleCalls).db.live.map (fun s => s.id)).Nodup ∧
    ∀ s ∈ (runWorld freshWorld sampleCalls).db.live,
      0 < s.id ∧ s.id < (runWorld freshWorld sampleCalls).g_next_id :=
  ⟨by decide, by decide, manager_ids_distinct sampleCalls (by decide) (by decide)⟩

end StudentDb
